import Mathlib

/-!
Verification development for the `link-scraper` service (`src/server.js`).

The repository is a small Node/Express service.  Its pure core — the wish-text
fallback analyzer, the LLM-response post-processing, the image-analyzer provider
cascade, the HTML metadata / JSON-LD / script-blob extractors, the price and
currency regex heuristics, the attribute-merging `parse` function, and the
ephemeral wish-text store — is shallowly embedded below.

Modelling conventions:
* JS strings are `List Char` / `String` (Unicode code points; `.length` of the
  store's bound check is modelled at UTF-16 code-unit granularity, matching JS).
* JS numbers are exact rationals; `NaN` is modelled as `Option.none` at the
  sites where the code can produce it (`parseFloat`, arithmetic never occurs).
  Inputs that would produce an IEEE infinity in JS (the literal `Infinity`)
  are likewise mapped to `none`; no call site reached by the theorems below can
  receive such an input (regex captures are digit strings, and the remaining
  sites are excluded by explicit hypotheses).
* Each JS regular expression used by the code is embedded as a dedicated
  backtracking matcher built from the combinators of this file, reproducing
  the JS semantics the code relies on: leftmost match, ordered alternation,
  greedy/lazy quantifiers with backtracking, the ASCII `\w`-based word
  boundary `\b`, and case folding for `/i` (ASCII plus the Cyrillic letters,
  which is the case-folding behaviour relevant to these patterns).
* Fallible JS code (`try`/`catch`, thrown `TypeError`s inside `parse`) is
  modelled with `Option`: `none` is an exception escaping the modelled code.
-/

namespace LinkScraper

/-! ## JS character classes and case folding -/

/-- JS regex `\s` (and `String.prototype.trim`'s whitespace set):
ASCII whitespace plus the Unicode space characters JS recognises. -/
def jsSpace (c : Char) : Bool :=
  let n := c.toNat
  n == 32 || n == 9 || n == 10 || n == 13 || n == 11 || n == 12 ||
  n == 0xa0 || n == 0x1680 || (Nat.ble 0x2000 n && Nat.ble n 0x200a) ||
  n == 0x2028 || n == 0x2029 || n == 0x202f || n == 0x205f || n == 0x3000 || n == 0xfeff

/-- ASCII digit, JS regex `\d`. -/
def jsDigit (c : Char) : Bool :=
  Nat.ble 48 c.toNat && Nat.ble c.toNat 57

/-- JS regex `\w`: ASCII letters, digits and underscore (Unicode letters are
NOT word characters in JS, which matters for the Cyrillic patterns below). -/
def jsWord (c : Char) : Bool :=
  let n := c.toNat
  (Nat.ble 65 n && Nat.ble n 90) || (Nat.ble 97 n && Nat.ble n 122) ||
  jsDigit c || n == 95

/-- Case folding used for `/i` matching and `toLowerCase`: ASCII upper → lower,
Cyrillic А‥Я → а‥я and Ё → ё.  This covers every cased letter occurring in
the patterns of `server.js`. -/
def foldChar (c : Char) : Char :=
  let n := c.toNat
  if Nat.ble 65 n && Nat.ble n 90 then Char.ofNat (n + 32)
  else if Nat.ble 0x410 n && Nat.ble n 0x42f then Char.ofNat (n + 0x20)
  else if n == 0x401 then Char.ofNat 0x451
  else c

/-- Case-fold a character list. -/
def foldList (l : List Char) : List Char := l.map foldChar

/-- JS `trim()`. -/
def jsTrim (l : List Char) : List Char :=
  ((l.dropWhile jsSpace).reverse.dropWhile jsSpace).reverse

/-- Substring containment on character lists (JS `String.prototype.includes`). -/
def containsSub (hay needle : List Char) : Bool :=
  match hay with
  | [] => needle.isEmpty
  | _ :: rest => needle.isPrefixOf hay || containsSub rest needle

/-- Case-insensitive containment: `new RegExp(tok, "i").test(s)` for a literal
token `tok`, i.e. substring search after case folding both sides. -/
def containsCI (hay needle : List Char) : Bool :=
  containsSub (foldList hay) (foldList needle)

/-- UTF-16 length of a string (JS `String.prototype.length`). -/
def utf16Len (s : String) : Nat :=
  s.data.foldl (fun n c => n + (if Nat.ble 0x10000 c.toNat then 2 else 1)) 0

/-! ## Exact decimal numbers

The JS numbers this code manipulates are produced only by `parseFloat` and
`JSON.parse` from decimal literals, and are never arithmetically combined —
they are only compared (`<`, truthiness, equality).  They are therefore
modelled as exact decimals `mant × 10^expn`; `NaN` is `Option.none` at the
sites that can produce it.  Values are kept in a canonical form (zero is
`⟨0, 0⟩`, any other mantissa is not divisible by ten) so that structural
equality coincides with value equality. -/

/-- An exact decimal `mant × 10^expn`. -/
structure Dec where
  mant : Int
  expn : Int
deriving DecidableEq, Repr

/-- Strip factors of ten from the mantissa into the exponent (fuel-bounded;
`m.natAbs` dominates the number of strippable factors). -/
def stripTenF : Nat → Int → Int → Int × Int
  | 0, m, e => (m, e)
  | fuel + 1, m, e =>
    if m ≠ 0 ∧ Int.tmod m 10 = 0 then stripTenF fuel (Int.tdiv m 10) (e + 1) else (m, e)

/-- Canonical constructor. -/
def Dec.norm (m e : Int) : Dec :=
  if m = 0 then ⟨0, 0⟩
  else
    let p := stripTenF m.natAbs m e
    ⟨p.1, p.2⟩

/-- Value order, by cross-scaling to the smaller exponent. -/
def Dec.ltB (a b : Dec) : Bool :=
  if a.expn ≤ b.expn then decide (a.mant < b.mant * (10 : Int) ^ (b.expn - a.expn).toNat)
  else decide (a.mant * (10 : Int) ^ (a.expn - b.expn).toNat < b.mant)

instance : LT Dec := ⟨fun a b => Dec.ltB a b = true⟩

instance (a b : Dec) : Decidable (a < b) := inferInstanceAs (Decidable (_ = true))

instance (n : Nat) : OfNat Dec n := ⟨Dec.norm (Int.ofNat n) 0⟩

instance : Neg Dec := ⟨fun a => ⟨-a.mant, a.expn⟩⟩

/-! ## JS `parseFloat` -/

/-- Value of a list of ASCII digits. -/
def digitsVal (ds : List Char) : Nat :=
  ds.foldl (fun acc c => acc * 10 + (c.toNat - 48)) 0

/-- Split off a maximal run of digits. -/
def takeDigits : List Char → List Char × List Char
  | c :: cs => if jsDigit c then let (ds, r) := takeDigits cs; (c :: ds, r) else ([], c :: cs)
  | [] => ([], [])

/-- Optional exponent part `e|E [+|-] digits`; JS `parseFloat` only consumes it
when at least one exponent digit follows. Returns the signed exponent. -/
def takeExponent (l : List Char) : Int :=
  match l with
  | c :: rest =>
    if c == 'e' || c == 'E' then
      match rest with
      | s :: rest2 =>
        if s == '+' then (digitsVal (takeDigits rest2).1 : Int)
        else if s == '-' then
          (if (takeDigits rest2).1.isEmpty then 0 else -(digitsVal (takeDigits rest2).1 : Int))
        else (digitsVal (takeDigits rest).1 : Int)
      | [] => 0
    else 0
  | [] => 0

/-- JS `parseFloat`: skip whitespace, optional sign, longest decimal-literal
prefix; `none` models `NaN` (and, by the convention above, `Infinity`).
Trailing garbage is ignored, exactly as in JS.  The value is
`±(int.frac) × 10^e`, built as an exact decimal. -/
def jsParseFloat (s : String) : Option Dec :=
  let l := s.data.dropWhile jsSpace
  let (sgn, l) : Int × List Char :=
    match l with
    | '-' :: r => (-1, r)
    | '+' :: r => (1, r)
    | _ => (1, l)
  let (intDs, r1) := takeDigits l
  let (fracDs, r2) :=
    match r1 with
    | '.' :: r => takeDigits r
    | _ => ([], r1)
  if intDs.isEmpty && fracDs.isEmpty then none
  else
    let expn : Int := if fracDs.isEmpty then takeExponent r1 else takeExponent r2
    some (Dec.norm (sgn * (digitsVal (intDs ++ fracDs) : Int)) (expn - fracDs.length))

/-! ## Backtracking matcher combinators

Each JS regex of `server.js` is embedded as a matcher built from these
combinators.  A matcher takes the remaining input and produces `Option α`
through an explicit continuation, so ordered alternation (`<|>` by priority),
greedy/lazy quantifiers and backtracking have exactly the JS semantics. -/

/-- Try a matcher at every position, leftmost first (JS `String.match` without
`g`: the match with the smallest start index wins). -/
def scanK (m : List Char → Option α) : List Char → Option α
  | [] => m []
  | c :: rest =>
    match m (c :: rest) with
    | some a => some a
    | none => scanK m rest

/-- Leftmost scan that also tracks the previous character (needed for `\b`). -/
def scanBK (m : Option Char → List Char → Option α) : Option Char → List Char → Option α
  | prev, [] => m prev []
  | prev, c :: rest =>
    match m prev (c :: rest) with
    | some a => some a
    | none => scanBK m (some c) rest

/-- Leftmost scan returning the unmatched prefix, the match payload and the
suffix after the match (needed for `String.replace` of the matched span). -/
def scanSplitK (m : List Char → Option (α × List Char)) :
    List Char → List Char → Option (List Char × α × List Char)
  | pre, l =>
    match m l with
    | some (a, rest) => some (pre.reverse, a, rest)
    | none =>
      match l with
      | c :: rest => scanSplitK m (c :: pre) rest
      | [] => none

/-- Case-sensitive literal. -/
def litK (pat : List Char) (k : List Char → Option α) : List Char → Option α :=
  match pat with
  | [] => k
  | p :: ps => fun l =>
    match l with
    | [] => none
    | c :: rest => if c == p then litK ps k rest else none

/-- Case-insensitive literal (regex `/i`), discarding the matched text. -/
def litCIK (pat : List Char) (k : List Char → Option α) : List Char → Option α :=
  match pat with
  | [] => k
  | p :: ps => fun l =>
    match l with
    | [] => none
    | c :: rest => if foldChar c == foldChar p then litCIK ps k rest else none

/-- Case-insensitive literal passing the actually matched characters on
(the capture keeps the input's case, as in JS). -/
def litCIKeepK (pat : List Char) (k : List Char → List Char → Option α) :
    List Char → Option α :=
  match pat with
  | [] => k []
  | p :: ps => fun l =>
    match l with
    | [] => none
    | c :: rest =>
      if foldChar c == foldChar p then litCIKeepK ps (fun acc r => k (c :: acc) r) rest
      else none

/-- Greedy `cls*` with backtracking: tries the longest run first, handing the
consumed characters and the remainder to the continuation. -/
def starK (cls : Char → Bool) (k : List Char → List Char → Option α) :
    List Char → Option α
  | [] => k [] []
  | c :: rest =>
    if cls c then
      match starK cls (fun acc r => k (c :: acc) r) rest with
      | some a => some a
      | none => k [] (c :: rest)
    else k [] (c :: rest)

/-- Greedy `cls+` with backtracking. -/
def plusK (cls : Char → Bool) (k : List Char → List Char → Option α) :
    List Char → Option α
  | [] => none
  | c :: rest => if cls c then starK cls (fun acc r => k (c :: acc) r) rest else none

/-- Greedy optional single character from a class (regex `cls?`). -/
def optChK (cls : Char → Bool) (k : Option Char → List Char → Option α) :
    List Char → Option α
  | [] => k none []
  | c :: rest =>
    if cls c then
      match k (some c) rest with
      | some a => some a
      | none => k none (c :: rest)
    else k none (c :: rest)

/-- Ordered case-insensitive alternation of literal tokens (first alternative
that lets the continuation succeed wins, as in a JS regex alternation). -/
def altCIKeepK (alts : List (List Char)) (k : List Char → List Char → Option α) :
    List Char → Option α :=
  match alts with
  | [] => fun _ => none
  | a :: rest => fun l =>
    match litCIKeepK a k l with
    | some x => some x
    | none => altCIKeepK rest k l

/-- Quote class `["']`. -/
def quoteCh (c : Char) : Bool := c == '"' || c == '\''

/-- JS word boundary `\b` between two (optional) characters: exactly one side
is an ASCII word character. -/
def bnd (a b : Option Char) : Bool :=
  (match a with | some c => jsWord c | none => false) !=
  (match b with | some c => jsWord c | none => false)

/-! ## Wish-text fallback analyzer (`analyzeWishTextFallback`, server.js:40) -/

/-- Result record shared by the three resolution paths.  `name` is a raw JS
value (the code can return a non-string name when an LLM responds with one),
modelled with `Json` below for the LLM paths; the fallback always produces a
string name. -/
structure WishRecord where
  name : String
  price : Option Dec
  currency : Option String
  size : Option String
deriving DecidableEq, Repr

mutual

/-- `s.replace(/\s+/g, " ")`: collapse every whitespace run to one space. -/
def collapseWs : List Char → List Char
  | [] => []
  | c :: rest => if jsSpace c then ' ' :: collapseWsSkip rest else c :: collapseWs rest

/-- Inside a whitespace run already emitted as one space: drop the rest. -/
def collapseWsSkip : List Char → List Char
  | [] => []
  | c :: rest => if jsSpace c then collapseWsSkip rest else c :: collapseWs rest

end

/-- `text.replace(/^хочу\s+/i, "")`: strip one leading intent word (anchored). -/
def stripWish (l : List Char) : List Char :=
  match litCIKeepK "хочу".data (fun _ r => plusK jsSpace (fun _ r2 => some r2) r) l with
  | some r => r
  | none => l

/-- The ordered currency-token alternation of the fallback's `priceRe`
(`руб\.?`, `₽`, `Br`, `BYN`, `\$`, `USD`, `€`, `EUR`, `долларов?`, `рублей`,
`бун\.?`), with each optional suffix expanded greedily in place. -/
def priceTokens : List (List Char) :=
  ["руб.".data, "руб".data, "₽".data, "Br".data, "BYN".data, "$".data,
   "USD".data, "€".data, "EUR".data, "долларов".data, "доллар".data,
   "рублей".data, "бун.".data, "бун".data]

/-- Matcher for `priceRe = /(\d[\d\s.]*)\s*(tok)/i` at one position: returns
the two captures and the input remaining after the whole match. -/
def priceReM : List Char → Option ((List Char × List Char) × List Char)
  | [] => none
  | c :: rest =>
    if jsDigit c then
      starK (fun ch => jsDigit ch || jsSpace ch || ch == '.')
        (fun tail r =>
          starK jsSpace
            (fun _ r2 => altCIKeepK priceTokens (fun tok r3 => some ((c :: tail, tok), r3)) r2)
            r)
        rest
    else none

/-- One alternative of `sizeRe` that is a plain word token, with the `\b`
boundaries on both sides. -/
def sizeTokM (tok : List Char) (prev : Option Char) (l : List Char) :
    Option (List Char) :=
  match l with
  | [] => none
  | c :: _ =>
    if bnd prev (some c) then
      litCIKeepK tok (fun act rest =>
        if bnd act.getLast? rest.head? then some act else none) l
    else none

/-- `EU\s*\d+` / `US\s*\d+` alternatives of `sizeRe`, with boundaries. -/
def sizeEuUsM (tok : List Char) (prev : Option Char) (l : List Char) :
    Option (List Char) :=
  match l with
  | [] => none
  | c :: _ =>
    if bnd prev (some c) then
      litCIKeepK tok (fun act rest =>
        starK jsSpace (fun sp r2 =>
          plusK jsDigit (fun ds r3 =>
            if bnd ds.getLast? r3.head? then some (act ++ sp ++ ds) else none) r2) rest) l
    else none

/-- `\d{2}` alternative of `sizeRe`, with boundaries. -/
def sizeDdM (prev : Option Char) (l : List Char) : Option (List Char) :=
  match l with
  | c1 :: c2 :: rest =>
    if bnd prev (some c1) && jsDigit c1 && jsDigit c2 && bnd (some c2) rest.head? then
      some [c1, c2]
    else none
  | _ => none

/-- `sizeRe = /\b(XS|S|M|L|XL|XXL|EU\s*\d+|US\s*\d+|\d{2})\b/i` at one
position (ordered alternation). -/
def sizeReM (prev : Option Char) (l : List Char) : Option (List Char) :=
  (sizeTokM "XS".data prev l).orElse fun _ =>
  (sizeTokM "S".data prev l).orElse fun _ =>
  (sizeTokM "M".data prev l).orElse fun _ =>
  (sizeTokM "L".data prev l).orElse fun _ =>
  (sizeTokM "XL".data prev l).orElse fun _ =>
  (sizeTokM "XXL".data prev l).orElse fun _ =>
  (sizeEuUsM "EU".data prev l).orElse fun _ =>
  (sizeEuUsM "US".data prev l).orElse fun _ =>
  sizeDdM prev l

/-- Is the capture exactly two digits (`/^\d{2}$/`)? -/
def isTwoDigits : List Char → Bool
  | [c1, c2] => jsDigit c1 && jsDigit c2
  | _ => false

/-- `/^(XS|S|M|L|XL|XXL)$/i` on the capture. -/
def isGarmentSize (sz : List Char) : Bool :=
  let f := foldList sz
  f == "xs".data || f == "s".data || f == "m".data || f == "l".data ||
  f == "xl".data || f == "xxl".data

/-- `/^(EU|US)\s*\d+/i` on the capture. -/
def isEuUsSize (sz : List Char) : Bool :=
  match sz with
  | a :: b :: rest =>
    ((foldChar a == 'e' && foldChar b == 'u') || (foldChar a == 'u' && foldChar b == 's')) &&
    !(((rest.dropWhile jsSpace).takeWhile jsDigit).isEmpty)
  | _ => false

/-- The fallback's currency normalisation from the matched token
(server.js:51-55): substring tests on the lowercased token. -/
def fallbackCurrency (tok : List Char) : Option String :=
  let c := foldList tok
  if containsSub c "руб".data || c == "₽".data then some "₽"
  else if containsSub c "byn".data || containsSub c "бун".data then some "Br"
  else if containsSub c "долл".data || c == "$".data then some "$"
  else if containsSub c "eur".data || containsSub c "евр".data then some "€"
  else none

/-- `analyzeWishTextFallback` (server.js:40-67): strip the intent word, find a
number adjacent to a currency token, range-check it, normalise the currency,
strip the matched span from the name, and separately locate a size token. -/
def analyzeWishTextFallback (text : String) : WishRecord :=
  let s0 := jsTrim (stripWish text.data)
  let s1 := if s0.isEmpty then "Желание".data else s0
  let priceMatch := scanSplitK priceReM [] s1
  let (s2, price, currency) :=
    match priceMatch with
    | some (pre, (m1, m2), post) =>
      match jsParseFloat (String.mk (m1.filter (fun c => !jsSpace c))) with
      | some q =>
        if q < 1000000000 then
          (jsTrim (collapseWs (pre ++ post)), some q, fallbackCurrency m2)
        else (s1, none, none)
      | none => (s1, none, none)
    | none => (s1, none, none)
  let size :=
    match scanBK sizeReM none s2 with
    | some sz =>
      if isTwoDigits sz then
        let n := digitsVal sz
        if 35 ≤ n && n ≤ 52 then some (String.mk sz) else none
      else if isGarmentSize sz || isEuUsSize sz then some (String.mk sz)
      else none
    | none => none
  { name := if s2.isEmpty then "Желание" else String.mk s2
    price := price
    currency := currency
    size := size }

/-! ## JSON values and `JSON.parse` -/

/-- A parsed JSON value.  Numbers are exact rationals (JS would round to the
nearest float64; exactness is a faithful refinement for the properties proved
here, which never depend on rounding). -/
inductive Json where
  | null
  | bool (b : Bool)
  | num (q : Dec)
  | str (s : String)
  | arr (elems : List Json)
  | obj (members : List (String × Json))
deriving Inhabited

/-- JSON whitespace (`JSON.parse` accepts only these four). -/
def jsonWs (c : Char) : Bool := c == ' ' || c == '\t' || c == '\n' || c == '\r'

/-- Hex digit value. -/
def hexVal (c : Char) : Option Nat :=
  let n := c.toNat
  if Nat.ble 48 n && Nat.ble n 57 then some (n - 48)
  else if Nat.ble 97 n && Nat.ble n 102 then some (n - 87)
  else if Nat.ble 65 n && Nat.ble n 70 then some (n - 55)
  else none

/-- Parse the body of a JSON string (after the opening quote), with escapes.
`\uXXXX` pairs of surrogates are combined; a lone surrogate (legal for
`JSON.parse`, which works on UTF-16) is mapped to U+FFFD since Lean strings
hold scalar values only — no input in this development contains one. -/
def parseJsonStr : Nat → List Char → Option (List Char × List Char)
  | 0, _ => none
  | _ + 1, [] => none
  | fuel + 1, c :: rest =>
    if c == '"' then some ([], rest)
    else if c == '\\' then
      match rest with
      | [] => none
      | e :: rest2 =>
        let simple : Option Char :=
          if e == '"' then some '"' else if e == '\\' then some '\\'
          else if e == '/' then some '/' else if e == 'b' then some '\x08'
          else if e == 'f' then some '\x0c' else if e == 'n' then some '\n'
          else if e == 'r' then some '\r' else if e == 't' then some '\t'
          else none
        match simple with
        | some ch =>
          match parseJsonStr fuel rest2 with
          | some (s, r) => some (ch :: s, r)
          | none => none
        | none =>
          if e == 'u' then
            match rest2 with
            | h1 :: h2 :: h3 :: h4 :: rest3 =>
              match hexVal h1, hexVal h2, hexVal h3, hexVal h4 with
              | some a, some b, some c2, some d =>
                let code := ((a * 16 + b) * 16 + c2) * 16 + d
                let ch := if Nat.ble 0xd800 code && Nat.ble code 0xdfff
                          then Char.ofNat 0xfffd else Char.ofNat code
                match parseJsonStr fuel rest3 with
                | some (s, r) => some (ch :: s, r)
                | none => none
              | _, _, _, _ => none
            | _ => none
          else none
    else if c.toNat < 32 then none
    else
      match parseJsonStr fuel rest with
      | some (s, r) => some (c :: s, r)
      | none => none

/-- Parse a JSON number at the head of the input, per the `JSON.parse`
grammar: `-?(0|[1-9][0-9]*)(\.[0-9]+)?([eE][+-]?[0-9]+)?`. -/
def parseJsonNum (l : List Char) : Option (Dec × List Char) :=
  let (sgn, l1) : Int × List Char := match l with | '-' :: r => (-1, r) | _ => (1, l)
  let (intDs, r1) : List Char × List Char :=
    match l1 with
    | '0' :: r => (['0'], r)
    | _ => takeDigits l1
  if intDs.isEmpty then none
  else
    let fracRes : Option (List Char × List Char) :=
      match r1 with
      | '.' :: r =>
        let (ds, rr) := takeDigits r
        if ds.isEmpty then none else some (ds, rr)
      | _ => some ([], r1)
    match fracRes with
    | none => none
    | some (fracDs, r2) =>
      let expRes : Option (Int × List Char) :=
        match r2 with
        | e :: r =>
          if e == 'e' || e == 'E' then
            let (esgn, r4) : Int × List Char :=
              match r with
              | '+' :: rr => (1, rr)
              | '-' :: rr => (-1, rr)
              | _ => (1, r)
            let (eds, r5) := takeDigits r4
            if eds.isEmpty then none else some (esgn * (digitsVal eds : Int), r5)
          else some (0, r2)
        | [] => some (0, r2)
      match expRes with
      | none => none
      | some (expn, r3) =>
        some (Dec.norm (sgn * (digitsVal (intDs ++ fracDs) : Int)) (expn - fracDs.length), r3)

mutual

/-- Parse one JSON value (fuel-based; fuel ≥ input length suffices). -/
def parseJsonVal : Nat → List Char → Option (Json × List Char)
  | 0, _ => none
  | fuel + 1, l =>
    match l.dropWhile jsonWs with
    | [] => none
    | c :: rest =>
      if c == '"' then
        match parseJsonStr (fuel + 1) rest with
        | some (s, r) => some (.str (String.mk s), r)
        | none => none
      else if c == '{' then parseJsonMembers fuel (rest.dropWhile jsonWs) []
      else if c == '[' then parseJsonElems fuel (rest.dropWhile jsonWs) []
      else if c == 't' then
        match litK "rue".data (fun r => some r) rest with
        | some r => some (.bool true, r) | none => none
      else if c == 'f' then
        match litK "alse".data (fun r => some r) rest with
        | some r => some (.bool false, r) | none => none
      else if c == 'n' then
        match litK "ull".data (fun r => some r) rest with
        | some r => some (.null, r) | none => none
      else
        match parseJsonNum (c :: rest) with
        | some (q, r) => some (.num q, r)
        | none => none

/-- Object members after `{` (leading whitespace already dropped). -/
def parseJsonMembers (fuel : Nat) (l : List Char) (acc : List (String × Json)) :
    Option (Json × List Char) :=
  match fuel with
  | 0 => none
  | fuel + 1 =>
    match l with
    | '}' :: r => if acc.isEmpty then some (.obj [], r) else none
    | '"' :: rest =>
      match parseJsonStr (fuel + 1) rest with
      | some (k, r1) =>
        match r1.dropWhile jsonWs with
        | ':' :: r2 =>
          match parseJsonVal fuel r2 with
          | some (v, r3) =>
            let acc2 := acc ++ [(String.mk k, v)]
            match r3.dropWhile jsonWs with
            | ',' :: r4 =>
              match (r4.dropWhile jsonWs) with
              | '"' :: _ => parseJsonMembers fuel (r4.dropWhile jsonWs) acc2
              | _ => none
            | '}' :: r4 => some (.obj acc2, r4)
            | _ => none
          | none => none
        | _ => none
      | none => none
    | _ => none

/-- Array elements after `[` (leading whitespace already dropped). -/
def parseJsonElems (fuel : Nat) (l : List Char) (acc : List Json) :
    Option (Json × List Char) :=
  match fuel with
  | 0 => none
  | fuel + 1 =>
    match l with
    | ']' :: r => if acc.isEmpty then some (.arr [], r) else none
    | _ =>
      match parseJsonVal fuel l with
      | some (v, r1) =>
        let acc2 := acc ++ [v]
        match r1.dropWhile jsonWs with
        | ',' :: r2 => parseJsonElems fuel (r2.dropWhile jsonWs) acc2
        | ']' :: r2 => some (.arr acc2, r2)
        | _ => none
      | none => none

end

/-- `JSON.parse`: the whole string must be one JSON value (plus whitespace);
`none` models a thrown `SyntaxError`. -/
def jsonParse (s : String) : Option Json :=
  match parseJsonVal (s.data.length + 1) s.data with
  | some (j, rest) => if (rest.dropWhile jsonWs).isEmpty then some j else none
  | none => none

/-! ## JS semantics on JSON values -/

/-- JS property read `j[k]` for parsed JSON: only objects have own properties;
duplicate keys — last one wins, as `JSON.parse` builds objects left to right.
`none` is JS `undefined`. -/
def getField (j : Json) (k : String) : Option Json :=
  match j with
  | .obj ms => (ms.reverse.find? (fun m => m.1 == k)).map (·.2)
  | _ => none

/-- JS truthiness of a parsed JSON value. -/
def jsTruthy (j : Json) : Bool :=
  match j with
  | .null => false
  | .bool b => b
  | .num q => !(q.mant == 0)
  | .str s => !(s == "")
  | .arr _ => true
  | .obj _ => true

/-- Plain decimal rendering of an exact decimal (the shape JS `String(x)`
prints for the magnitudes appearing here; JS switches to exponent notation
only beyond 1e21/1e-7, which no consumer in this code depends on).
Auxiliary for `jsonToString`. -/
def decRender (d : Dec) : String :=
  let sgn := if d.mant < 0 then "-" else ""
  let m := d.mant.natAbs
  if 0 ≤ d.expn then
    sgn ++ toString (m * 10 ^ d.expn.toNat)
  else
    let k := (-d.expn).toNat
    let digits := toString m
    let digits := (List.replicate (k + 1 - digits.length) '0').asString ++ digits
    let cut := digits.length - k
    sgn ++ (digits.take cut) ++ "." ++ (digits.drop cut)

mutual

/-- JS `String(x)` on a parsed JSON value (`[object Object]` for objects,
comma-joined recursive rendering for arrays).  Its only consumers in the
modelled code are a `.includes("Product")` test and an object-key lookup, so
what matters is exactness on strings/arrays-of-strings and letter-freeness of
numbers, both of which hold. -/
def jsonToString : Json → String
  | .null => "null"
  | .bool b => if b then "true" else "false"
  | .num q => decRender q
  | .str s => s
  | .arr es => String.intercalate "," (jsonToStringList es)
  | .obj _ => "[object Object]"

/-- `String(x)` mapped over array elements (for the array case of
`Array.prototype.toString`). -/
def jsonToStringList : List Json → List String
  | [] => []
  | e :: es => jsonToString e :: jsonToStringList es

end

/-! ## `findProductInJsonLd` (server.js:315-322) -/

mutual

/-- Structural size of a JSON value (fuel bound for `findProductInJsonLd`). -/
def jsonSize : Json → Nat
  | .arr es => 1 + jsonSizeL es
  | .obj ms => 1 + jsonSizeM ms
  | _ => 1

/-- Size of array elements. -/
def jsonSizeL : List Json → Nat
  | [] => 0
  | e :: es => jsonSize e + jsonSizeL es

/-- Size of object members. -/
def jsonSizeM : List (String × Json) → Nat
  | [] => 0
  | (_, v) :: ms => jsonSize v + jsonSizeM ms

end

mutual

/-- `findProductInJsonLd`, fuel-based (the JS function recurses through an
`@graph` property value, which is not a structural subterm for Lean; any fuel
`≥ jsonSize j` behaves identically to the JS recursion, which always descends
into strictly smaller values).

JS semantics reproduced exactly: falsy input → `null`; a node whose `@type`
is strictly `"Product"`, or whose `String(node["@type"] || "")` contains
`"Product"`, is returned; an array returns its first **element** for which the
recursive search is truthy (`Array.prototype.find` returns the element, not
the recursive result); otherwise a truthy `@graph` property is searched. -/
def findProductF : Nat → Json → Option Json
  | 0, _ => none
  | fuel + 1, j =>
    if jsTruthy j = false then none
    else
      let t : Json := match getField j "@type" with | some v => v | none => .null
      if (match t with | .str s => s == "Product" | _ => false) then some j
      else if containsSub (jsonToString (if jsTruthy t then t else .str "")).data "Product".data then
        some j
      else
        match j with
        | .arr es => findProductLF fuel es
        | _ =>
          match getField j "@graph" with
          | some g => if jsTruthy g then findProductF fuel g else none
          | none => none

/-- `Array.prototype.find` over the recursive search (returns the element). -/
def findProductLF : Nat → List Json → Option Json
  | 0, _ => none
  | _ + 1, [] => none
  | fuel + 1, x :: xs =>
    if (findProductF fuel x).isSome then some x else findProductLF (fuel + 1) xs

end

/-- `findProductInJsonLd` with enough fuel for its argument (each recursive
step strictly descends into the value, and `2 * jsonSize j + 1` dominates the
fuel consumed along any such descent). -/
def findProductInJsonLd (j : Json) : Option Json :=
  findProductF (2 * jsonSize j + 1) j

/-! ## LLM response post-processing (`analyzeWishText`, `analyzeImage`) -/

/-- `t.match(/\{[\s\S]*\}/)`: greedy — the span from the **first** `{` to the
**last** `}` of the text (`none` when no such span exists).  Note this is not
the first *balanced* span. -/
def braceSpanGreedy (s : String) : Option String :=
  match s.data.dropWhile (fun c => !(c == '{')) with
  | [] => none
  | c :: rest =>
    match (c :: rest).reverse.dropWhile (fun ch => !(ch == '}')) with
    | [] => none
    | upto => some (String.mk upto.reverse)

/-- Modelled from the spec: «locating the first balanced `{...}` span» — the
span from the first `{` to its matching `}` by brace counting.  This
definition follows the spec's words (it is **not** in the source) and exists
only to be compared against `braceSpanGreedy`, the code's actual rule. -/
def specFirstBalancedSpan (s : String) : Option String :=
  match s.data.dropWhile (fun c => !(c == '{')) with
  | [] => none
  | c :: rest => (goBal 1 [c] rest).map String.mk
where
  goBal : Nat → List Char → List Char → Option (List Char)
  | _, _, [] => none
  | depth, acc, c :: rest =>
    if c == '{' then goBal (depth + 1) (c :: acc) rest
    else if c == '}' then
      if depth == 1 then some (c :: acc).reverse else goBal (depth - 1) (c :: acc) rest
    else goBal depth (c :: acc) rest

/-- Record produced by the LLM paths.  `name` is a raw JSON value: the code
returns `parsed.name` without a type guard, so a provider can make it
non-textual. -/
structure LlmRecord where
  name : Json
  price : Option Dec
  currency : Option String
  size : Option String

/-- Lift a fallback record (whose name is always a string). -/
def wishRecordToLlm (r : WishRecord) : LlmRecord :=
  ⟨.str r.name, r.price, r.currency, r.size⟩

/-- The `curMap` table of `analyzeWishText` (server.js:93), keyed by the JS
property name. -/
def curMap (k : String) : Option String :=
  if k == "BYN" then some "Br"
  else if k == "Br" then some "Br"
  else if k == "RUB" then some "₽"
  else if k == "руб" then some "₽"
  else if k == "USD" then some "$"
  else if k == "EUR" then some "€"
  else if k == "KZT" then some "₸"
  else none

/-- `curMap[cur] || (typeof cur === "string" ? cur : null) || null`.
JS property lookup coerces the key through `String(cur)`; a missing
`currency` field is `undefined`, whose string form is `"undefined"`. -/
def wishCurrencyNormalize (cur : Option Json) : Option String :=
  let key := match cur with | some v => jsonToString v | none => "undefined"
  match curMap key with
  | some m => some m
  | none =>
    match cur with
    | some (.str s) => if s == "" then none else some s
    | _ => none

/-- Build the wish-text record from a successfully parsed JSON object
(server.js:94-99). -/
def buildWishRecord (parsed : Json) (text : String) : LlmRecord :=
  { name :=
      match getField parsed "name" with
      | some v =>
        if jsTruthy v && !(jsTrim (jsonToString v).data).isEmpty then v
        else .str (analyzeWishTextFallback text).name
      | none => .str (analyzeWishTextFallback text).name
    price := match getField parsed "price" with | some (.num q) => some q | _ => none
    currency := wishCurrencyNormalize (getField parsed "currency")
    size := match getField parsed "size" with | some (.str s) => some s | _ => none }

/-- Outcome of one provider HTTP call, as observed by the code after
`fetch` + `res.json()`:
* `netFail` — the `fetch` (or body-JSON decoding) rejected;
* `httpErr` — `res.ok` is false;
* `ok c` — success, with `c` the optional message text
  (`data.choices?.[0]?.message?.content`, resp. the Gemini candidate text). -/
inductive FetchOutcome where
  | netFail
  | httpErr
  | ok (content : Option String)

/-- `analyzeWishText` (server.js:69-103) given whether an API key is
configured and the call's outcome.  A rejected `fetch` is **uncaught** there,
modelled as `none` (an exception escaping the function); every other path
returns a record. -/
def analyzeWishText (hasKey : Bool) (out : FetchOutcome) (text : String) :
    Option LlmRecord :=
  if !hasKey then some (wishRecordToLlm (analyzeWishTextFallback text))
  else
    match out with
    | .netFail => none
    | .httpErr => some (wishRecordToLlm (analyzeWishTextFallback text))
    | .ok none => some (wishRecordToLlm (analyzeWishTextFallback text))
    | .ok (some t) =>
      match braceSpanGreedy t with
      | none => some (wishRecordToLlm (analyzeWishTextFallback text))
      | some s =>
        match jsonParse s with
        | some parsed => some (buildWishRecord parsed text)
        | none => some (wishRecordToLlm (analyzeWishTextFallback text))

/-- The all-unknown record returned when no vision provider succeeds. -/
def naRecord : LlmRecord := ⟨.str "N/A", none, none, none⟩

/-- Build the vision record from a parsed JSON object (server.js:143-148;
identical in all three provider branches). -/
def buildVisionRecord (p : Json) : LlmRecord :=
  { name :=
      match getField p "name" with
      | some v =>
        if jsTruthy v && !(jsTrim (jsonToString v).data).isEmpty then v else .str "N/A"
      | none => .str "N/A"
    price := match getField p "price" with | some (.num q) => some q | _ => none
    currency := match getField p "currency" with | some (.str s) => some s | _ => none
    size := match getField p "size" with | some (.str s) => some s | _ => none }

/-- One provider branch of `analyzeImage`: skipped without its key; failures
(network, non-OK status, missing content, no `{...}` span, `JSON.parse`
throw — the last caught by the branch's `try`) all yield `none` = try the
next provider. -/
def tryVisionProvider (keyPresent : Bool) (out : FetchOutcome) : Option LlmRecord :=
  if !keyPresent then none
  else
    match out with
    | .netFail => none
    | .httpErr => none
    | .ok none => none
    | .ok (some t) =>
      match braceSpanGreedy t with
      | none => none
      | some s =>
        match jsonParse s with
        | some p => some (buildVisionRecord p)
        | none => none

/-- Which vision API keys are configured. -/
structure VisionCfg where
  groq : Bool
  openrouter : Bool
  gemini : Bool

/-- `analyzeImage` (server.js:105-247): early `N/A` record when no key at all
is configured; otherwise Groq, then OpenRouter, then Gemini, first success
wins; `N/A` record when every branch fails.  Total — no error can escape. -/
def analyzeImage (cfg : VisionCfg) (og oo ogm : FetchOutcome) : LlmRecord :=
  if !cfg.groq && !cfg.openrouter && !cfg.gemini then naRecord
  else
    match tryVisionProvider cfg.groq og with
    | some r => r
    | none =>
      match tryVisionProvider cfg.openrouter oo with
      | some r => r
      | none =>
        match tryVisionProvider cfg.gemini ogm with
        | some r => r
        | none => naRecord

/-! ## Ephemeral wish-text store (server.js:16-18, 432-451) -/

/-- `WISH_TEXT_TTL = 10 * 60 * 1000`. -/
def WISH_TEXT_TTL : Nat := 10 * 60 * 1000

/-- A stored entry: `{ text, expires: Date.now() + WISH_TEXT_TTL }`. -/
structure WishEntry where
  text : String
  expires : Nat
deriving DecidableEq, Repr

/-- The store plus the pending `setTimeout` deletions and the clock (ms). -/
structure StoreState where
  store : List (String × WishEntry)
  timers : List (String × Nat)
  now : Nat
deriving DecidableEq, Repr

/-- `req.body?.text` as the handler sees it. -/
inductive BodyText where
  | missing
  | nonString
  | str (s : String)

/-- The validation of `POST /store-wish-text` (server.js:434):
`!text || typeof text !== "string" || text.length > 2000` rejects; `.length`
is UTF-16 code units. -/
def validText : BodyText → Option String
  | .str s => if s == "" || Nat.blt 2000 (utf16Len s) then none else some s
  | _ => none

/-- `Map.prototype.set` (overwrite by key). -/
def mapSet (m : List (String × WishEntry)) (k : String) (v : WishEntry) :
    List (String × WishEntry) :=
  (k, v) :: m.filter (fun kv => !(kv.1 == k))

/-- The `POST /store-wish-text` handler: returns the next state and `some id`
(HTTP 200) or `none` (HTTP 400 `Invalid text`). -/
def storeWishTextHandler (st : StoreState) (id : String) (body : BodyText) :
    StoreState × Option String :=
  match validText body with
  | none => (st, none)
  | some t =>
    ({ store := mapSet st.store id ⟨t, st.now + WISH_TEXT_TTL⟩
       timers := (id, st.now + WISH_TEXT_TTL) :: st.timers
       now := st.now }, some id)

/-- The `GET /wish-text` lookup (server.js:446-448): a plain `Map.get`;
**the stored `expires` timestamp is never consulted**. `none` is the 404
`Not found or expired` response. -/
def getWishTextHandler (st : StoreState) (id : String) : Option String :=
  (st.store.find? (fun kv => kv.1 == id)).map (fun kv => kv.2.text)

/-- Remove the first due timer for `id`. -/
def eraseTimer : List (String × Nat) → String → List (String × Nat)
  | [], _ => []
  | tm :: rest, id => if tm.1 == id then rest else tm :: eraseTimer rest id

/-- Environment events: a submission (with the generated random id), the
passage of time, and the firing of a scheduled deletion.  Node guarantees a
`setTimeout` callback never runs **before** its delay has elapsed, hence the
`fireAt ≤ now` guard; it may run arbitrarily late. -/
inductive WishOp where
  | post (id : String) (body : BodyText)
  | advance (d : Nat)
  | fire (id : String)

/-- One event. -/
def stepOp (st : StoreState) : WishOp → StoreState
  | .post id body => (storeWishTextHandler st id body).1
  | .advance d => { st with now := st.now + d }
  | .fire id =>
    if st.timers.any (fun tm => tm.1 == id && Nat.ble tm.2 st.now) then
      { store := st.store.filter (fun kv => !(kv.1 == id))
        timers := eraseTimer st.timers id
        now := st.now }
    else st

/-- Initial state at server start. -/
def initStore : StoreState := ⟨[], [], 0⟩

/-- Run a list of events from the initial state. -/
def execOps (ops : List WishOp) : StoreState :=
  ops.foldl stepOp initStore

/-! ## HTML metadata readers (`extractMeta`, `extractTitle`) -/

/-- Single required character from a class. -/
def chK (cls : Char → Bool) (k : List Char → Option α) : List Char → Option α
  | [] => none
  | c :: rest => if cls c then k rest else none

/-- The tail `=["']NAME["']` of an attribute match, continuing with `k`. -/
def attrEqM (name : List Char) (k : List Char → Option α) : List Char → Option α :=
  chK (fun c => c == '=') (chK quoteCh (litCIK name (chK quoteCh k)))

/-- `content=["']([^"']+)["']` — the capture of `extractMeta`. -/
def contentCapM : List Char → Option String :=
  litCIK "content".data (chK (fun c => c == '=') (chK quoteCh
    (plusK (fun c => !(quoteCh c)) (fun cap =>
      chK quoteCh (fun _ => some (String.mk cap))))))

/-- First `extractMeta` regex (server.js:251):
`<meta[^>]+(?:property|name)=["']NAME["'][^>]+content=["']([^"']+)["']` `/i`. -/
def metaRe1M (name : List Char) : List Char → Option String :=
  litCIK "<meta".data
    (plusK (fun c => !(c == '>')) (fun _ l =>
      let keyTail := attrEqM name (plusK (fun c => !(c == '>')) (fun _ => contentCapM))
      match litCIK "property".data keyTail l with
      | some s => some s
      | none => litCIK "name".data keyTail l))

/-- Second `extractMeta` regex (server.js:257), content attribute first. -/
def metaRe2M (name : List Char) : List Char → Option String :=
  litCIK "<meta".data
    (plusK (fun c => !(c == '>')) (fun _ =>
      litCIK "content".data (chK (fun c => c == '=') (chK quoteCh
        (plusK (fun c => !(quoteCh c)) (fun cap =>
          chK quoteCh (plusK (fun c => !(c == '>')) (fun _ l =>
            let keyTail := attrEqM name (fun _ => some (String.mk cap))
            match litCIK "property".data keyTail l with
            | some s => some s
            | none => litCIK "name".data keyTail l))))))))

/-- `extractMeta` (server.js:249-263). -/
def extractMeta (html : String) (name : String) : Option String :=
  match scanK (metaRe1M name.data) html.data with
  | some s => some s
  | none => scanK (metaRe2M name.data) html.data

/-- `extractTitle` (server.js:265-268): `/<title[^>]*>([^<]+)<\/title>/i`,
then `trim()` of the capture. -/
def extractTitle (html : String) : Option String :=
  (scanK
    (litCIK "<title".data (starK (fun c => !(c == '>')) (fun _ =>
      chK (fun c => c == '>') (plusK (fun c => !(c == '<')) (fun cap =>
        litCIK "</title>".data (fun _ => some (String.mk cap)))))))
    html.data).map (fun s => String.mk (jsTrim s.data))

/-! ## Price heuristic (`extractPriceFromHtml`, server.js:270-291) -/

/-- Capture `(\d+(?:[.,]\d+)?)` greedily, with backtracking on the optional
fractional part. -/
def numCapK (k : List Char → List Char → Option α) : List Char → Option α :=
  plusK jsDigit (fun ds l =>
    match l with
    | c :: rest =>
      if c == '.' || c == ',' then
        match plusK jsDigit (fun ds2 r2 => k (ds ++ c :: ds2) r2) rest with
        | some a => some a
        | none => k ds l
      else k ds l
    | [] => k ds [])

/-- `"KEY"\s*:\s*["']?(num)["']?` with `/i` (patterns 1, 3-6 and the inner
part of patterns 9-10). -/
def keyColonNumCI (key : List Char) : List Char → Option String :=
  chK (fun c => c == '"') (litCIK key (chK (fun c => c == '"') (starK jsSpace (fun _ =>
    chK (fun c => c == ':') (starK jsSpace (fun _ =>
      optChK quoteCh (fun _ => numCapK (fun ds _ => some (String.mk ds)))))))))

/-- Pattern 2: `/"price"\s*:\s*(\d+(?:[.,]\d+)?)/` — case-sensitive, number
not quoted. -/
def priceKeyPlainM : List Char → Option String :=
  chK (fun c => c == '"') (litK "price".data (chK (fun c => c == '"') (starK jsSpace (fun _ =>
    chK (fun c => c == ':') (starK jsSpace (fun _ =>
      numCapK (fun ds _ => some (String.mk ds))))))))

/-- Pattern 7: `/data-price=["'](num)["']/i`. -/
def dataPriceM : List Char → Option String :=
  litCIK "data-price".data (chK (fun c => c == '=') (chK quoteCh
    (numCapK (fun ds => chK quoteCh (fun _ => some (String.mk ds))))))

/-- Pattern 8: `/itemprop="price"\s+content=["'](num)["']/i`. -/
def itempropPriceM : List Char → Option String :=
  litCIK "itemprop=\"price\"".data (plusK jsSpace (fun _ =>
    litCIK "content".data (chK (fun c => c == '=') (chK quoteCh
      (numCapK (fun ds => chK quoteCh (fun _ => some (String.mk ds))))))))

/-- Pattern 9: `/__NEXT_DATA__[\s\S]*?"price"\s*:\s*["']?(num)["']?/i` — the
lazy gap is the first occurrence of the price key at/after the marker. -/
def nextDataM : List Char → Option String :=
  litCIK "__NEXT_DATA__".data (fun rest => scanK (keyColonNumCI "price".data) rest)

/-- Pattern 10:
`/(?:__NUXT__|__INITIAL_STATE__|"product")\s*[:\}][\s\S]*?"price"\s*:\s*["']?(num)["']?/i`. -/
def frameworkM : List Char → Option String := fun l =>
  let tail := starK jsSpace (fun _ =>
    chK (fun c => c == ':' || c == '}') (fun r2 => scanK (keyColonNumCI "price".data) r2))
  match litCIK "__NUXT__".data tail l with
  | some s => some s
  | none =>
    match litCIK "__INITIAL_STATE__".data tail l with
    | some s => some s
    | none => litCIK "\"product\"".data tail l

/-- The ten patterns of `extractPriceFromHtml`, in source order, each lifted
to a leftmost scan over the document. -/
def pricePatterns : List (List Char → Option String) :=
  [scanK (keyColonNumCI "price".data),
   scanK priceKeyPlainM,
   scanK (keyColonNumCI "currentPrice".data),
   scanK (keyColonNumCI "salePrice".data),
   scanK (keyColonNumCI "basePrice".data),
   scanK (keyColonNumCI "productPrice".data),
   scanK dataPriceM,
   scanK itempropPriceM,
   scanK nextDataM,
   scanK frameworkM]

/-- `String(m[1]).replace(",", ".")` — a string pattern replaces only the
first occurrence. -/
def replaceFirstComma : List Char → List Char
  | [] => []
  | c :: rest => if c == ',' then '.' :: rest else c :: replaceFirstComma rest

/-- One iteration of the `extractPriceFromHtml` loop: the pattern's first
match, parsed and range-checked; `none` both when the pattern does not match
and when the matched value is out of range (the loop continues either way). -/
def tryPricePattern (p : List Char → Option String) (html : List Char) : Option Dec :=
  match p html with
  | some cap =>
    match jsParseFloat (String.mk (replaceFirstComma cap.data)) with
    | some n => if 0 < n ∧ n < 1000000000 then some n else none
    | none => none
  | none => none

/-- `extractPriceFromHtml` (server.js:270-291). -/
def extractPriceFromHtml (html : String) : Option Dec :=
  pricePatterns.findSome? (fun p => tryPricePattern p html.data)

/-! ## Currency heuristic (`extractCurrencyFromHtml`, server.js:293-313) -/

/-- ASCII letter (`[A-Z]` under `/i`). -/
def isAsciiLetter (c : Char) : Bool :=
  let n := c.toNat
  (Nat.ble 65 n && Nat.ble n 90) || (Nat.ble 97 n && Nat.ble n 122)

/-- `/"priceCurrency"\s*:\s*["']([A-Z]{3})["']/i` at one position. -/
def priceCurrencyM : List Char → Option String :=
  chK (fun c => c == '"') (litCIK "priceCurrency".data (chK (fun c => c == '"')
    (starK jsSpace (fun _ => chK (fun c => c == ':') (starK jsSpace (fun _ =>
      chK quoteCh (fun l =>
        match l with
        | a :: b :: c :: q :: _ =>
          if isAsciiLetter a && isAsciiLetter b && isAsciiLetter c && quoteCh q then
            some (String.mk [a, b, c])
          else none
        | _ => none)))))))

/-- The token alternation of `/\b(BYN|Br|₽|руб\.?|RUB|USD|\$|EUR|€)\b/i`, in
source order, with the greedy optional dot expanded in place. -/
def curTokens : List (List Char) :=
  ["BYN".data, "Br".data, "₽".data, "руб.".data, "руб".data, "RUB".data,
   "USD".data, "$".data, "EUR".data, "€".data]

/-- The bounded token match at one position, with the JS `\b` on both sides. -/
def curTokM (prev : Option Char) (l : List Char) : Option String :=
  goTok curTokens
where
  goTok : List (List Char) → Option String
  | [] => none
  | tok :: rest =>
    match litCIKeepK tok (fun act r =>
      if bnd prev act.head? && bnd act.getLast? r.head? then some (String.mk act)
      else none) l with
    | some s => some s
    | none => goTok rest

/-- `extractCurrencyFromHtml` (server.js:293-313). -/
def extractCurrencyFromHtml (html : String) : Option String :=
  match scanK priceCurrencyM html.data with
  | some c =>
    if containsCI c.data "BYN".data || containsCI c.data "Br".data then some "Br"
    else if containsCI c.data "RUB".data then some "₽"
    else if containsCI c.data "USD".data then some "$"
    else if containsCI c.data "EUR".data then some "€"
    else if containsCI c.data "KZT".data then some "₸"
    else some c
  | none =>
    match scanBK curTokM none html.data with
    | some c =>
      if containsCI c.data "BYN".data || containsCI c.data "Br".data then some "Br"
      else if containsCI c.data "RUB".data || containsCI c.data "₽".data ||
              containsCI c.data "руб".data then some "₽"
      else if containsCI c.data "USD".data || containsCI c.data "$".data then some "$"
      else if containsCI c.data "EUR".data || containsCI c.data "€".data then some "€"
      else none
    | none => none

/-! ## JSON-LD block scan (`extractJsonLd`, server.js:324-336) -/

/-- One match of
`/<script[^>]+type=["']application\/ld\+json["'][^>]*>([\s\S]*?)<\/script>/gi`:
the captured body and the input after the whole match. -/
def ldScriptM : List Char → Option (String × List Char) :=
  litCIK "<script".data (plusK (fun c => !(c == '>')) (fun _ =>
    litCIK "type".data (chK (fun c => c == '=') (chK quoteCh
      (litCIK "application/ld+json".data (chK quoteCh
        (starK (fun c => !(c == '>')) (fun _ =>
          chK (fun c => c == '>') (ldBody [])))))))))
where
  ldBody (acc : List Char) : List Char → Option (String × List Char) := fun l =>
    match litCIK "</script>".data (fun r => some r) l with
    | some r => some (String.mk acc.reverse, r)
    | none =>
      match l with
      | c :: rest => ldBody (c :: acc) rest
      | [] => none

/-- All bodies, in order (`matchAll` semantics: scanning resumes after each
match; fuel `≥ length + 1` suffices since every step consumes input). -/
def ldBodies : Nat → List Char → List String
  | 0, _ => []
  | _ + 1, [] => []
  | fuel + 1, c :: rest =>
    match ldScriptM (c :: rest) with
    | some (body, r2) => body :: ldBodies fuel r2
    | none => ldBodies fuel rest

/-- `extractJsonLd`: parse each block, return the first Product node;
parse failures are swallowed. -/
def extractJsonLd (html : String) : Option Json :=
  (ldBodies (html.data.length + 1) html.data).findSome?
    (fun body => (jsonParse body).bind findProductInJsonLd)

/-! ## Script-blob scanner (`extractFromJsonBlobs`, server.js:338-372) -/

/-- One full match of `/<script[^>]*>([\s\S]*?)<\/script>/gi` (with `g`,
`String.match` returns the full matches) and the rest of the input. -/
def scriptBlockM : List Char → Option (String × List Char) := fun l =>
  litCIKeepK "<script".data (fun open1 r =>
    starK (fun c => !(c == '>')) (fun attrs r2 =>
      match r2 with
      | '>' :: r3 => blockBody (open1 ++ attrs ++ ['>']) [] r3
      | _ => none) r) l
where
  blockBody (pre acc : List Char) : List Char → Option (String × List Char) := fun l =>
    match litCIKeepK "</script>".data (fun close r => some (close, r)) l with
    | some (close, r) => some (String.mk (pre ++ acc.reverse ++ close), r)
    | none =>
      match l with
      | c :: rest => blockBody pre (c :: acc) rest
      | [] => none

/-- All script blocks, in order. -/
def scriptBlocks : Nat → List Char → List String
  | 0, _ => []
  | _ + 1, [] => []
  | fuel + 1, c :: rest =>
    match scriptBlockM (c :: rest) with
    | some (block, r2) => block :: scriptBlocks fuel r2
    | none => scriptBlocks fuel rest

/-- `block.replace(/<\/?script[^>]*>/gi, "")`. -/
def scriptTagM : List Char → Option (List Char) :=
  chK (fun c => c == '<') (fun l =>
    let tail := litCIK "script".data
      (starK (fun c => !(c == '>')) (fun _ => chK (fun c => c == '>') (fun r => some r)))
    match l with
    | '/' :: r => tail r
    | _ => tail l)

/-- Global replacement of script tags by the empty string. -/
def stripScriptTags : Nat → List Char → List Char
  | 0, l => l
  | _ + 1, [] => []
  | fuel + 1, c :: rest =>
    match scriptTagM (c :: rest) with
    | some r2 => stripScriptTags fuel r2
    | none => c :: stripScriptTags fuel rest

/-- One repetition item `(?:[^"\\]|\\.)` of the blob-name capture. -/
def blobItemK (k : List Char → List Char → Option α) : List Char → Option α
  | [] => none
  | c :: rest =>
    if c == '\\' then
      match rest with
      | c2 :: r2 => k [c, c2] r2
      | [] => none
    else if c == '"' then none
    else k [c] rest

/-- Greedy counted repetition `item{lo,hi}` with backtracking (longest run
that lets the continuation succeed; recursion on `hi`). -/
def repRangeK (lo hi : Nat) (item : (List Char → List Char → Option α) → List Char → Option α)
    (k : List Char → List Char → Option α) : List Char → Option α := fun l =>
  match hi with
  | 0 => if lo == 0 then k [] l else none
  | hi2 + 1 =>
    match item (fun seg r => repRangeK (lo - 1) hi2 item (fun acc r2 => k (seg ++ acc) r2) r) l with
    | some a => some a
    | none => if lo == 0 then k [] l else none

/-- `/"KEY"\s*:\s*"((?:[^"\\]|\\.){5,200})"/` — blob name capture (raw,
escapes still present); case-sensitive. -/
def blobNameM (key : List Char) : List Char → Option String :=
  chK (fun c => c == '"') (litK key (chK (fun c => c == '"') (starK jsSpace (fun _ =>
    chK (fun c => c == ':') (starK jsSpace (fun _ =>
      chK (fun c => c == '"')
        (repRangeK 5 200 blobItemK (fun cap r =>
          match r with
          | '"' :: _ => some (String.mk cap)
          | _ => none))))))))

/-- `.replace(/\\"/g, '"')` on the raw capture. -/
def unescapeQuotes : List Char → List Char
  | '\\' :: '"' :: rest => '"' :: unescapeQuotes rest
  | c :: rest => c :: unescapeQuotes rest
  | [] => []

/-- `/^(true|false|null|undefined|N\/A)$/i` denylist on the raw capture. -/
def isPlaceholderName (s : List Char) : Bool :=
  let f := foldList s
  f == "true".data || f == "false".data || f == "null".data ||
  f == "undefined".data || f == "n/a".data

/-- `/"price"\s*:\s*(\d+(?:\.\d+)?)/` — blob price capture (case-sensitive,
dot only, unquoted). -/
def blobPriceM : List Char → Option String :=
  chK (fun c => c == '"') (litK "price".data (chK (fun c => c == '"') (starK jsSpace (fun _ =>
    chK (fun c => c == ':') (starK jsSpace (fun _ =>
      plusK jsDigit (fun ds l =>
        match l with
        | '.' :: rest =>
          match plusK jsDigit (fun ds2 _ => some (String.mk (ds ++ '.' :: ds2))) rest with
          | some s => some s
          | none => some (String.mk ds)
        | _ => some (String.mk ds))))))))

/-- `https?:\/\/[^"]+` — first image-URL alternative, returning the rest. -/
def urlAlt1 : List Char → Option (List Char) :=
  litK "http".data (fun r =>
    let after := litK "://".data (plusK (fun c => !(c == '"')) (fun _ r3 => some r3))
    match r with
    | 's' :: r2 =>
      match after r2 with
      | some x => some x
      | none => after r
    | _ => after r)

/-- `\\/\\/[^"]+` — matches a JSON-escaped protocol-relative URL `\/\/…`. -/
def urlAlt2 : List Char → Option (List Char) :=
  litK "\\/\\/".data (plusK (fun c => !(c == '"')) (fun _ r => some r))

/-- `\/[^"]+` — root-relative path. -/
def urlAlt3 : List Char → Option (List Char) :=
  litK "/".data (plusK (fun c => !(c == '"')) (fun _ r => some r))

/-- The image-URL alternation with its matched span. -/
def urlAltSpan (l : List Char) : Option (List Char × List Char) :=
  let run := fun (m : List Char → Option (List Char)) =>
    (m l).map (fun rest => (l.take (l.length - rest.length), rest))
  match run urlAlt1 with
  | some x => some x
  | none =>
    match run urlAlt2 with
    | some x => some x
    | none => run urlAlt3

/-- `/"KEY"\s*:\s*"(url-alt)"/` — blob image capture (case-sensitive). -/
def blobImageM (key : List Char) : List Char → Option String :=
  chK (fun c => c == '"') (litK key (chK (fun c => c == '"') (starK jsSpace (fun _ =>
    chK (fun c => c == ':') (starK jsSpace (fun _ =>
      chK (fun c => c == '"') (fun l2 =>
        match urlAltSpan l2 with
        | some (cap, r) =>
          match r with
          | '"' :: _ => some (String.mk cap)
          | _ => none
        | none => none)))))))

/-- Scheme split of a URL string at the first `://`. -/
def splitScheme : List Char → Option (List Char × List Char)
  | [] => none
  | c :: rest =>
    if "://".data.isPrefixOf (c :: rest) then some ([], (c :: rest).drop 3)
    else
      match splitScheme rest with
      | some (sch, after) => some (c :: sch, after)
      | none => none

/-- `new URL(url, base).href` for the inputs reachable from this code: `url`
begins with `/` or `\` (WHATWG resolution maps backslashes to slashes under
special schemes, so `\/\/x` is protocol-relative and `/x` is root-relative);
a `base` without a `scheme://host` shape throws (`none`).  Path-relative
resolution (never produced by the regexes above, which anchor on `/`, `\` or
`http`) is approximated as root-relative. -/
def resolveUrl (url base : String) : Option String :=
  match splitScheme base.data with
  | none => none
  | some (sch, after) =>
    if sch.isEmpty then none
    else
      let host := after.takeWhile (fun c => !(c == '/' || c == '?' || c == '#' || c == '\\'))
      if host.isEmpty then none
      else
        let u := url.data.map (fun c => if c == '\\' then '/' else c)
        match u with
        | '/' :: '/' :: _ =>
          -- protocol-relative: the parser skips every leading slash before
          -- reading the new authority
          let afterSlashes := u.dropWhile (fun c => c == '/')
          if afterSlashes.isEmpty then none
          else some (String.mk (sch ++ "://".data ++ afterSlashes))
        | '/' :: _ => some (String.mk (sch ++ "://".data ++ host ++ u))
        | _ => some (String.mk (sch ++ "://".data ++ host ++ '/' :: u))

/-- `url.startsWith("http") ? url : url.startsWith("//") ? "https:" + url :
new URL(url, baseUrl).href` (server.js:358). -/
def resolveImageUrl (url base : String) : Option String :=
  if "http".data.isPrefixOf url.data then some url
  else if "//".data.isPrefixOf url.data then some ("https:" ++ url)
  else resolveUrl url base

/-- The blob scanner's accumulator `{name, price, currency, image}`. -/
structure BlobOut where
  name : Option String
  price : Option Dec
  currency : Option String
  image : Option String
deriving DecidableEq, Repr

/-- JS falsiness of an optional string (`undefined`/`null` or `""`). -/
def optFalsyS : Option String → Bool
  | none => true
  | some s => s == ""

/-- JS falsiness of an optional number (`undefined`/`null` or `0`). -/
def optFalsyQ : Option Dec → Bool
  | none => true
  | some q => q.mant == 0

/-- The two name statements of the blob loop (server.js:344-349): the
`productName` capture, then — while the accumulator is still falsy — the
denylisted `name` capture. -/
def blobNameStep (outName : Option String) (inner : List Char) : Option String :=
  let name1 :=
    match scanK (blobNameM "productName".data) inner with
    | some nm =>
      if optFalsyS outName then some (String.mk (jsTrim (unescapeQuotes nm.data)))
      else outName
    | none => outName
  if optFalsyS name1 then
    match scanK (blobNameM "name".data) inner with
    | some nm =>
      if !(isPlaceholderName nm.data) then some (String.mk (jsTrim (unescapeQuotes nm.data)))
      else name1
    | none => name1
  else name1

/-- The price statement of the blob loop (server.js:350-354): first match,
assigned only when the accumulator is falsy and `0 < n < 1e9`. -/
def blobPriceStep (outPrice : Option Dec) (inner : List Char) : Option Dec :=
  match scanK blobPriceM inner with
  | some ps =>
    if optFalsyQ outPrice then
      match jsParseFloat ps with
      | some n => if 0 < n ∧ n < 1000000000 then some n else outPrice
      | none => outPrice
    else outPrice
  | none => outPrice

/-- The two image statements of the blob loop (server.js:355-366); outer
`none` = a `new URL` `TypeError`. -/
def blobImageStep (outImage : Option String) (inner : List Char) (baseUrl : String) :
    Option (Option String) := do
  let image2 ←
    match scanK (blobImageM "image".data) inner with
    | some u =>
      if optFalsyS outImage then (resolveImageUrl u baseUrl).map some
      else pure outImage
    | none => pure outImage
  if optFalsyS image2 then
    match scanK (blobImageM "mainImage".data) inner with
    | some u => (resolveImageUrl u baseUrl).map some
    | none => pure image2
  else pure image2

/-- One iteration of the blob loop (server.js:342-367) over one script block;
`none` models the `new URL` `TypeError` escaping the function. -/
def blobStep (baseUrl : String) (out : BlobOut) (block : String) : Option BlobOut := do
  let inner := stripScriptTags (block.data.length + 1) block.data
  let img ← blobImageStep out.image inner baseUrl
  pure { name := blobNameStep out.name inner
         price := blobPriceStep out.price inner
         currency := out.currency
         image := img }

/-- `extractFromJsonBlobs` (server.js:338-372), including the `BYN` /
`goldapple` currency defaults on the raw document. -/
def extractFromJsonBlobs (html : String) (baseUrl : String) : Option BlobOut := do
  let blocks := scriptBlocks (html.data.length + 1) html.data
  let out ← blocks.foldlM (blobStep baseUrl) ⟨none, none, none, none⟩
  let cur1 :=
    if optFalsyS out.currency && containsSub html.data "BYN".data then some "Br"
    else out.currency
  let cur2 :=
    if optFalsyS cur1 && containsSub html.data "goldapple".data then some "Br"
    else cur1
  pure { out with currency := cur2 }

/-! ## The attribute resolver (`parse`, server.js:374-422) -/

/-- The merged attribute record returned by `GET /?url=…` (without the
`imageBase64` side channel, which the parse function does not produce). -/
structure PageRecord where
  name : String
  price : Option Dec
  currency : Option String
  size : Option String
  link : String
  image : Option String
deriving DecidableEq, Repr

/-- Truthy projection of an optional JS string (`""` is falsy). -/
def strTruthy : Option String → Option String
  | some s => if s == "" then none else some s
  | none => none

/-- `Array.prototype.find` of the size property with the possible
`TypeError` on a `null` element (`p.name` throws): outer `none` = throw. -/
def findSizeProp : List Json → Option (Option Json)
  | [] => some none
  | p :: rest =>
    match p with
    | .null => none
    | _ =>
      if (match getField p "name" with
          | some (.str s) => s == "Размер" || s == "Size"
          | _ => false)
      then some (some p)
      else findSizeProp rest

/-- `name = ogTitle || (jsonLd && jsonLd.name) || blob.name || title || "N/A"`
followed by the final `typeof name === "string" ? name : "N/A"` guard
(server.js:383, 415). -/
def jsName (ogTitle : Option String) (jsonLd : Option Json) (blobName : Option String)
    (title : Option String) : String :=
  let nameV : Json :=
    match strTruthy ogTitle with
    | some s => .str s
    | none =>
      match (match jsonLd.bind (fun j => getField j "name") with
             | some v => if jsTruthy v then some v else none
             | none => none) with
      | some v => v
      | none =>
        match strTruthy blobName with
        | some s => .str s
        | none =>
          match strTruthy title with
          | some s => .str s
          | none => .str "N/A"
  match nameV with | .str s => s | _ => "N/A"

/-- The structured-data offer as used by the price/currency blocks:
`Array.isArray(jsonLd.offers) ? jsonLd.offers[0] : jsonLd.offers`, entered
only when `jsonLd && jsonLd.offers` is truthy, and used only when `off` is
truthy (a falsy offer leaves the field `null`, which has the same
fall-through effect as never entering the block). -/
def jsOffer (jsonLd : Option Json) : Option Json :=
  match jsonLd with
  | some ld =>
    match getField ld "offers" with
    | some offers =>
      if jsTruthy offers then
        match (match offers with | .arr es => es.head? | v => some v) with
        | some offv => if jsTruthy offv then some offv else none
        | none => none
      else none
    | none => none
  | none => none

/-- The price chain (server.js:384-390, 416).  Intermediates live in
`Option (Option Dec)`: outer `none` = JS `null`/`undefined` (falls through to
the next source), `some none` = `NaN` (does **not** fall through —
`price == null` is false for `NaN` — but is mapped to `null` by the final
`!isNaN` guard). -/
def jsPrice (ogPrice : Option String) (jsonLd : Option Json) (blobPrice : Option Dec)
    (heur : Option Dec) : Option Dec :=
  let price0 : Option (Option Dec) :=
    match strTruthy ogPrice with
    | some s => some (jsParseFloat s)
    | none => none
  let price1 : Option (Option Dec) :=
    match price0 with
    | some v => some v
    | none =>
      match jsOffer jsonLd with
      | some offv =>
        some (match getField offv "price" with
              | some (.num q) => some q
              | some v => jsParseFloat (jsonToString v)
              | none => jsParseFloat "undefined")
      | none => none
  let price2 : Option (Option Dec) :=
    match price1 with
    | some v => some v
    | none => blobPrice.map some
  let price3 : Option (Option Dec) :=
    match price2 with
    | some v => some v
    | none => heur.map some
  match price3 with | some (some q) => some q | _ => none

/-- The currency chain (server.js:392-398, 417):
`ogCurrency || null`, then `off && (off.priceCurrency || off.currency)`, then
`blob.currency`, then the document scanner, then the final
`typeof currency === "string"` guard.  `Option Json` intermediates: `none` =
any falsy value. -/
def jsCurrency (ogCurrency : Option String) (jsonLd : Option Json)
    (blobCurrency : Option String) (heur : Option String) : Option String :=
  let cur0 : Option Json := (strTruthy ogCurrency).map .str
  let cur1 : Option Json :=
    match cur0 with
    | some v => some v
    | none =>
      match jsOffer jsonLd with
      | some offv =>
        match getField offv "priceCurrency" with
        | some pc =>
          if jsTruthy pc then some pc
          else
            match getField offv "currency" with
            | some cv => if jsTruthy cv then some cv else none
            | none => none
        | none =>
          match getField offv "currency" with
          | some cv => if jsTruthy cv then some cv else none
          | none => none
      | none => none
  let cur2 : Option Json :=
    match cur1 with
    | some v => some v
    | none => (strTruthy blobCurrency).map .str
  let cur3 : Option Json :=
    match cur2 with
    | some v => some v
    | none => heur.map .str
  match cur3 with | some (.str s) => some s | _ => none

/-- The size block (server.js:400-405, 418); outer `none` = the `TypeError`
thrown by `.find` on a truthy non-array `additionalProperty` (or by `p.name`
on a `null` element). -/
def jsSize (jsonLd : Option Json) : Option (Option String) := do
  let sizeV : Option Json ←
    (match jsonLd with
     | none => pure none
     | some ld =>
       match (match getField ld "size" with
              | some v => if jsTruthy v then some v else none
              | none => none) with
       | some v => pure (some v)
       | none =>
         match getField ld "additionalProperty" with
         | some ap =>
           if jsTruthy ap then
             match ap with
             | .arr es =>
               match findSizeProp es with
               | some (some p) =>
                 match getField p "value" with
                 | some v => pure (if jsTruthy v then some v else none)
                 | none => pure none
               | some none => pure none
               | none => none
             | _ => none
           else pure none
         | none => pure none)
  pure (match sizeV with | some (.str s) => some s | _ => none)

/-- The image block (server.js:407-412); outer `none` = a thrown `TypeError`
(`.startsWith` on a truthy non-string) or `new URL` failure. -/
def jsImage (ogImage : Option String) (jsonLd : Option Json) (blobImage : Option String)
    (targetUrl : String) : Option (Option String) :=
  let imageV : Option Json :=
    match strTruthy ogImage with
    | some s => some (.str s)
    | none =>
      match (match jsonLd with
             | some ld =>
               match getField ld "image" with
               | some (.arr es) =>
                 match es.head? with
                 | some v => if jsTruthy v then some v else none
                 | none => none
               | some v => if jsTruthy v then some v else none
               | none => none
             | none => none) with
      | some v => some v
      | none => (strTruthy blobImage).map .str
  match imageV with
  | none => some none
  | some (.str s) =>
    if "http".data.isPrefixOf s.data then some (some s)
    else (resolveUrl s targetUrl).map some
  | some _ => none

/-- `parse` (server.js:374-422).  `none` models an exception escaping `parse`
(the blob scanner's `new URL`, the size block's `TypeError`, or the image
block's failures — in the source's evaluation order), which the route turns
into the 502 `_fallback` response. -/
def parse (html targetUrl : String) : Option PageRecord := do
  let blob ← extractFromJsonBlobs html targetUrl
  let size ← jsSize (extractJsonLd html)
  let image ← jsImage (extractMeta html "og:image") (extractJsonLd html) blob.image targetUrl
  pure { name := jsName (extractMeta html "og:title") (extractJsonLd html) blob.name
                   (extractTitle html)
         price := jsPrice (extractMeta html "og:price:amount") (extractJsonLd html) blob.price
                    (extractPriceFromHtml html)
         currency := jsCurrency (extractMeta html "og:price:currency") (extractJsonLd html)
                       blob.currency (extractCurrencyFromHtml html)
         size := size
         link := targetUrl
         image := image }

/-! ## Shared lemmas -/

/-- A successful `findSome?` splits the list at the first productive element. -/
theorem findSome?_split {α β : Type _} {f : α → Option β} :
    ∀ {l : List α} {b : β}, l.findSome? f = some b →
      ∃ l1 a l2, l = l1 ++ a :: l2 ∧ f a = some b ∧ ∀ x ∈ l1, f x = none := by
  intro l
  induction l with
  | nil => intro b h; simp [List.findSome?_nil] at h
  | cons a l ih =>
    intro b h
    rw [List.findSome?_cons] at h
    cases hfa : f a with
    | some c =>
      simp only [hfa] at h
      exact ⟨[], a, l, rfl, by rw [hfa]; exact h, by simp⟩
    | none =>
      simp only [hfa] at h
      obtain ⟨l1, x, l2, hsplit, hx, hnone⟩ := ih h
      refine ⟨a :: l1, x, l2, by rw [hsplit]; simp, hx, ?_⟩
      intro y hy
      rcases List.mem_cons.mp hy with rfl | hy2
      · exact hfa
      · exact hnone y hy2

/-- `findSome?` of an everywhere-failing function is `none`. -/
theorem findSome?_none {α β : Type _} {f : α → Option β} :
    ∀ {l : List α}, (∀ a ∈ l, f a = none) → l.findSome? f = none := by
  intro l
  induction l with
  | nil => intro _; simp [List.findSome?_nil]
  | cons a l ih =>
    intro h
    rw [List.findSome?_cons, h a (by simp)]
    exact ih (fun x hx => h x (List.mem_cons_of_mem a hx))

/-- Whatever `extractPriceFromHtml`'s loop accepts from one pattern is
strictly between 0 and 1e9 (the guard at server.js:287). -/
theorem tryPricePattern_range {p : List Char → Option String} {html : List Char} {q : Dec}
    (h : tryPricePattern p html = some q) : 0 < q ∧ q < 1000000000 := by
  cases hm : p html with
  | none => simp [tryPricePattern, hm] at h
  | some cap =>
    simp only [tryPricePattern, hm] at h
    cases hp : jsParseFloat (String.mk (replaceFirstComma cap.data)) with
    | none => simp [hp] at h
    | some n =>
      simp only [hp] at h
      split_ifs at h with hc
      cases h; exact hc

/-- Range guarantee for `extractPriceFromHtml`. -/
theorem extractPriceFromHtml_range {html : String} {q : Dec}
    (h : extractPriceFromHtml html = some q) : 0 < q ∧ q < 1000000000 := by
  unfold extractPriceFromHtml at h
  obtain ⟨l1, p, l2, _, hp, _⟩ := findSome?_split h
  exact tryPricePattern_range hp

/-- The blob price statement either keeps the accumulator or stores an
in-range value. -/
theorem blobPriceStep_spec (p : Option Dec) (inner : List Char) :
    blobPriceStep p inner = p ∨
      ∃ q, blobPriceStep p inner = some q ∧ 0 < q ∧ q < 1000000000 := by
  cases hs : scanK blobPriceM inner with
  | none => exact Or.inl (by simp [blobPriceStep, hs])
  | some ps =>
    by_cases hf : optFalsyQ p = true
    · cases hp : jsParseFloat ps with
      | none => exact Or.inl (by simp [blobPriceStep, hs, hf, hp])
      | some n =>
        by_cases hr : 0 < n ∧ n < 1000000000
        · exact Or.inr ⟨n, by simp [blobPriceStep, hs, hf, hp, hr], hr⟩
        · exact Or.inl (by simp [blobPriceStep, hs, hf, hp, hr])
    · exact Or.inl (by simp [blobPriceStep, hs, hf])

/-- The price a `blobStep` produces. -/
theorem blobStep_price_eq {base : String} {out : BlobOut} {block : String} {out2 : BlobOut}
    (h : blobStep base out block = some out2) :
    out2.price = blobPriceStep out.price (stripScriptTags (block.data.length + 1) block.data) := by
  cases himg : blobImageStep out.image (stripScriptTags (block.data.length + 1) block.data) base with
  | none =>
    simp only [blobStep, himg, Option.bind_eq_bind, Option.none_bind] at h
    exact Option.noConfusion h
  | some img =>
    simp only [blobStep, himg, Option.bind_eq_bind, Option.some_bind, Option.pure_def,
      Option.some.injEq] at h
    rw [← h]

/-- The blob fold preserves "price absent or in range". -/
theorem blobFold_price {base : String} :
    ∀ (blocks : List String) (out res : BlobOut),
      List.foldlM (blobStep base) out blocks = some res →
      (out.price = none ∨ ∃ q, out.price = some q ∧ 0 < q ∧ q < 1000000000) →
      res.price = none ∨ ∃ q, res.price = some q ∧ 0 < q ∧ q < 1000000000 := by
  intro blocks
  induction blocks with
  | nil =>
    intro out res h hp
    simp only [List.foldlM_nil, Option.pure_def, Option.some.injEq] at h
    rw [← h]; exact hp
  | cons b blocks ih =>
    intro out res h hp
    rw [List.foldlM_cons] at h
    cases hs : blobStep base out b with
    | none =>
      simp only [hs, Option.bind_eq_bind, Option.none_bind] at h
      exact Option.noConfusion h
    | some out1 =>
      simp only [hs, Option.bind_eq_bind, Option.some_bind] at h
      refine ih out1 res h ?_
      have hpe := blobStep_price_eq hs
      rcases blobPriceStep_spec out.price (stripScriptTags (b.data.length + 1) b.data) with
        heq | ⟨q, heq, hq⟩
      · rw [hpe, heq]; exact hp
      · exact Or.inr ⟨q, by rw [hpe, heq], hq⟩

/-- The blob scanner's price is absent or strictly between 0 and 1e9. -/
theorem extractFromJsonBlobs_price {html url : String} {b : BlobOut}
    (h : extractFromJsonBlobs html url = some b) :
    b.price = none ∨ ∃ q, b.price = some q ∧ 0 < q ∧ q < 1000000000 := by
  cases hf : List.foldlM (blobStep url) ⟨none, none, none, none⟩
      (scriptBlocks (html.data.length + 1) html.data) with
  | none =>
    simp only [extractFromJsonBlobs, hf, Option.bind_eq_bind, Option.none_bind] at h
    exact Option.noConfusion h
  | some out =>
    simp only [extractFromJsonBlobs, hf, Option.bind_eq_bind, Option.some_bind,
      Option.pure_def, Option.some.injEq] at h
    have hbp : b.price = out.price := by rw [← h]
    rw [hbp]
    exact blobFold_price _ _ _ hf (Or.inl rfl)

/-- Eliminating a successful `parse` into its per-field components. -/
theorem parse_some_elim {html url : String} {r : PageRecord} (h : parse html url = some r) :
    ∃ b sz img, extractFromJsonBlobs html url = some b ∧
      jsSize (extractJsonLd html) = some sz ∧
      jsImage (extractMeta html "og:image") (extractJsonLd html) b.image url = some img ∧
      r = { name := jsName (extractMeta html "og:title") (extractJsonLd html) b.name
                      (extractTitle html)
            price := jsPrice (extractMeta html "og:price:amount") (extractJsonLd html) b.price
                       (extractPriceFromHtml html)
            currency := jsCurrency (extractMeta html "og:price:currency") (extractJsonLd html)
                          b.currency (extractCurrencyFromHtml html)
            size := sz, link := url, image := img } := by
  cases hb : extractFromJsonBlobs html url with
  | none =>
    simp only [parse, hb, Option.bind_eq_bind, Option.none_bind] at h
    exact Option.noConfusion h
  | some b =>
    cases hs : jsSize (extractJsonLd html) with
    | none =>
      simp only [parse, hb, hs, Option.bind_eq_bind, Option.some_bind, Option.none_bind] at h
      exact Option.noConfusion h
    | some sz =>
      cases hi : jsImage (extractMeta html "og:image") (extractJsonLd html) b.image url with
      | none =>
        simp only [parse, hb, hs, hi, Option.bind_eq_bind, Option.some_bind,
          Option.none_bind] at h
        exact Option.noConfusion h
      | some img =>
        simp only [parse, hb, hs, hi, Option.bind_eq_bind, Option.some_bind,
          Option.pure_def, Option.some.injEq] at h
        exact ⟨b, sz, img, rfl, rfl, hi, h.symm⟩

/-! ## Claim theorems -/

/-- C1: the claim says a lookup after the expiry timestamp reports "not
found" even if the deferred removal has not run.  The code violates this:
`GET /wish-text` is a bare `Map.get` that never consults the stored
`expires` field, so after storing at t = 0 and letting the clock pass the
TTL without the timer firing, the lookup still returns the stored text while
`now` is strictly past the entry's expiry timestamp. -/
theorem c1_stale_text_returned_after_expiry :
    getWishTextHandler
        (execOps [WishOp.post "w1" (.str "hello"), WishOp.advance (WISH_TEXT_TTL + 1)]) "w1"
      = some "hello" ∧
    (execOps [WishOp.post "w1" (.str "hello"), WishOp.advance (WISH_TEXT_TTL + 1)]).now
      = WISH_TEXT_TTL + 1 ∧
    (execOps [WishOp.post "w1" (.str "hello"), WishOp.advance (WISH_TEXT_TTL + 1)]).store
      = [("w1", ⟨"hello", WISH_TEXT_TTL⟩)] := by
  refine ⟨rfl, rfl, rfl⟩

/-- C7: the deterministic wish-text fallback on
`"хочу кроссовки Nike 42 за 150 руб"` yields a name without the word
«хочу», price 150, currency ₽ and size "42" (the full resolved name is
`"кроссовки Nike 42 за"`). -/
theorem c7_fallback_reference_input :
    analyzeWishTextFallback "хочу кроссовки Nike 42 за 150 руб" =
      ⟨"кроссовки Nike 42 за", some 150, some "₽", some "42"⟩ ∧
    containsSub "кроссовки Nike 42 за".data "хочу".data = false := by
  exact ⟨by decide, by decide⟩

/-- C8 as stated is false: the document currency scanner applied to the bare
symbol `"₽"` detects nothing (its token regex `\b…\b` uses ASCII word
boundaries, which never hold around a symbol that is not adjacent to an
ASCII word character), instead of returning `"₽"` as idempotence would
require. -/
theorem c8_counterexample :
    extractCurrencyFromHtml "₽" = none ∧ extractCurrencyFromHtml "₽" ≠ some "₽" := by
  exact ⟨by decide, by decide⟩

/-- C8 amended: the wish-text currency map is idempotent on the closed symbol
set {₽, Br, $, €, ₸}; the document scanner applied to a bare symbol as input
text returns the symbol itself only for `Br`, and reports no currency
(absent) for ₽, $, €, ₸ — its ASCII word-boundary token regex cannot match a
free-standing symbol, and ₸ is not in its token set at all — so it never
rewrites one symbol into a different one. -/
theorem c8_amended_idempotence :
    (∀ s ∈ ["₽", "Br", "$", "€", "₸"], wishCurrencyNormalize (some (.str s)) = some s) ∧
    extractCurrencyFromHtml "Br" = some "Br" ∧
    extractCurrencyFromHtml "₽" = none ∧
    extractCurrencyFromHtml "$" = none ∧
    extractCurrencyFromHtml "€" = none ∧
    extractCurrencyFromHtml "₸" = none := by
  refine ⟨?_, by decide, by decide, by decide, by decide, by decide⟩
  intro s hs
  fin_cases hs <;> rfl

/-- Closed witness for the hypothesis-bearing conjunct of
`c8_amended_idempotence`, instantiated at the symbol ₽. -/
theorem c8_amended_idempotence_witness :
    wishCurrencyNormalize (some (.str "₽")) = some "₽" :=
  c8_amended_idempotence.1 "₽" (by simp)

/-- C5 as stated is false.  The analyzer's extraction regex
`/\{[\s\S]*\}/` is greedy (first `{` to *last* `}`), not "first balanced
span": for the provider response `{"name":"X",…,"size":"M"} }` the first
balanced span is valid JSON whose record carries price 1, yet the analyzer
falls back to the deterministic result (price absent) because the greedy
span includes the stray brace and fails `JSON.parse`. -/
theorem c5_counterexample :
    specFirstBalancedSpan "\x7b\"name\":\"X\",\"price\":1,\"currency\":\"USD\",\"size\":\"M\"\x7d \x7d"
      = some "\x7b\"name\":\"X\",\"price\":1,\"currency\":\"USD\",\"size\":\"M\"\x7d" ∧
    (jsonParse "\x7b\"name\":\"X\",\"price\":1,\"currency\":\"USD\",\"size\":\"M\"\x7d").map
        (fun j => (buildWishRecord j "хочу мяч").price) = some (some 1) ∧
    analyzeWishText true (.ok (some "\x7b\"name\":\"X\",\"price\":1,\"currency\":\"USD\",\"size\":\"M\"\x7d \x7d"))
        "хочу мяч"
      = some (wishRecordToLlm (analyzeWishTextFallback "хочу мяч")) ∧
    (analyzeWishTextFallback "хочу мяч").price = none := by
  exact ⟨by decide, rfl, rfl, by decide⟩

/-- C5 amended: the analyzer accepts a candidate record exactly when the span
from the **first `{` to the last `}`** of the response text parses as JSON
(the code's greedy `\{[\s\S]*\}` match); in every other case — no such span,
`JSON.parse` failure on it, a non-OK response, or a missing message — the
deterministic fallback result is returned. -/
theorem c5_amended_greedy_span_rule (text t : String) :
    (∀ s j, braceSpanGreedy t = some s → jsonParse s = some j →
      analyzeWishText true (.ok (some t)) text = some (buildWishRecord j text)) ∧
    (braceSpanGreedy t = none →
      analyzeWishText true (.ok (some t)) text
        = some (wishRecordToLlm (analyzeWishTextFallback text))) ∧
    (∀ s, braceSpanGreedy t = some s → jsonParse s = none →
      analyzeWishText true (.ok (some t)) text
        = some (wishRecordToLlm (analyzeWishTextFallback text))) ∧
    (∀ out, out = FetchOutcome.httpErr ∨ out = FetchOutcome.ok none →
      analyzeWishText true out text
        = some (wishRecordToLlm (analyzeWishTextFallback text))) := by
  refine ⟨?_, ?_, ?_, ?_⟩
  · intro s j hs hj
    simp only [analyzeWishText, Bool.not_true, Bool.false_eq_true, if_false, hs, hj]
  · intro hs
    simp only [analyzeWishText, Bool.not_true, Bool.false_eq_true, if_false, hs]
  · intro s hs hj
    simp only [analyzeWishText, Bool.not_true, Bool.false_eq_true, if_false, hs, hj]
  · intro out hout
    rcases hout with rfl | rfl <;>
      simp only [analyzeWishText, Bool.not_true, Bool.false_eq_true, if_false]

/-- Closed witness for `c5_amended_greedy_span_rule`: a response whose greedy
span is valid JSON is accepted as the candidate record. -/
theorem c5_amended_greedy_span_rule_witness :
    analyzeWishText true (.ok (some "ok \x7b\"price\":2\x7d ")) "хочу мяч"
      = some (buildWishRecord (Json.obj [("price", Json.num 2)]) "хочу мяч") :=
  (c5_amended_greedy_span_rule "хочу мяч" "ok \x7b\"price\":2\x7d ").1
    "\x7b\"price\":2\x7d" (Json.obj [("price", Json.num 2)]) rfl rfl

/-- C2 as stated is false: a price supplied by the open-graph amount tag is
only guarded against `NaN`, not against sign or magnitude — on a document
whose `og:price:amount` content is `"-5"`, `parse` resolves price −5, a
negative number. -/
theorem c2_counterexample :
    (parse "<meta property=\"og:price:amount\" content=\"-5\">" "https://e.x").map
        PageRecord.price = some (some (-5 : Dec)) ∧
    (-5 : Dec) < 0 := by
  exact ⟨rfl, by decide⟩

/-- C4: the regex price heuristic tries its labeled patterns in the fixed
source priority order (`pricePatterns` lists them in the order of
server.js:271-281) and returns the first matched value parsing to a number
strictly between 0 and 1e9; it never returns a value outside that open
interval, and returns absent when no pattern yields such a value. -/
theorem c4_price_heuristic_first_in_range :
    (∀ html q, extractPriceFromHtml html = some q → 0 < q ∧ q < 1000000000) ∧
    (∀ html q, extractPriceFromHtml html = some q →
      ∃ l1 p l2, pricePatterns = l1 ++ p :: l2 ∧ tryPricePattern p html.data = some q ∧
        ∀ p2 ∈ l1, tryPricePattern p2 html.data = none) ∧
    (∀ html, (∀ p ∈ pricePatterns, tryPricePattern p html.data = none) →
      extractPriceFromHtml html = none) := by
  refine ⟨?_, ?_, ?_⟩
  · intro html q h
    exact extractPriceFromHtml_range h
  · intro html q h
    unfold extractPriceFromHtml at h
    exact findSome?_split h
  · intro html h
    unfold extractPriceFromHtml
    exact findSome?_none h

/-- Closed witness for `c4_price_heuristic_first_in_range`: the in-range
guarantee at a concrete document resolving price 25. -/
theorem c4_price_heuristic_first_in_range_witness :
    (0 : Dec) < 25 ∧ (25 : Dec) < 1000000000 :=
  c4_price_heuristic_first_in_range.1 "<p>\"price\": 25</p>" 25 (by decide)

/-- `jsPrice` with no open-graph amount and no structured data only sees the
guarded script-blob and heuristic sources. -/
theorem jsPrice_guarded (blobPrice heur : Option Dec)
    (hb : blobPrice = none ∨ ∃ q, blobPrice = some q ∧ 0 < q ∧ q < 1000000000)
    (hh : ∀ q, heur = some q → 0 < q ∧ q < 1000000000) :
    jsPrice none none blobPrice heur = none ∨
      ∃ q, jsPrice none none blobPrice heur = some q ∧ 0 < q ∧ q < 1000000000 := by
  rcases hb with rfl | ⟨q, rfl, hq⟩
  · cases heur with
    | none => exact Or.inl rfl
    | some q2 => exact Or.inr ⟨q2, rfl, hh q2 rfl⟩
  · exact Or.inr ⟨q, rfl, hq⟩

/-- C2 amended: the resolved price is never `NaN` (the final guard maps it to
absent); and whenever the document supplies neither an `og:price:amount` tag
nor a structured-data block — the two sources the code does **not**
range-check — the price is absent or strictly between 0 and 1e9, by the
script-blob and regex-heuristic guards. -/
theorem c2_amended_price_range :
    ∀ html url r, extractMeta html "og:price:amount" = none →
      extractJsonLd html = none → parse html url = some r →
      r.price = none ∨ ∃ q, r.price = some q ∧ 0 < q ∧ q < 1000000000 := by
  intro html url r hog hld hp
  obtain ⟨b, sz, img, hb, hsz, him, rfl⟩ := parse_some_elim hp
  show jsPrice (extractMeta html "og:price:amount") (extractJsonLd html) b.price
        (extractPriceFromHtml html) = none ∨ _
  rw [hog, hld]
  exact jsPrice_guarded b.price (extractPriceFromHtml html)
    (extractFromJsonBlobs_price hb) (fun q hq => extractPriceFromHtml_range hq)

/-- Closed witness for `c2_amended_price_range` at a document whose only
price evidence is the regex heuristic. -/
theorem c2_amended_price_range_witness :
    (⟨"N/A", some 25, none, none, "https://e.x", none⟩ : PageRecord).price = none ∨
      ∃ q, (⟨"N/A", some 25, none, none, "https://e.x", none⟩ : PageRecord).price = some q ∧
        0 < q ∧ q < 1000000000 :=
  c2_amended_price_range "<p>\"price\": 25</p>" "https://e.x"
    ⟨"N/A", some 25, none, none, "https://e.x", none⟩ rfl rfl rfl

/-- The og-currency pass-through of the currency chain. -/
theorem jsCurrency_og_passthrough (c : String) (hc : c ≠ "") (ld : Option Json)
    (bc heur : Option String) : jsCurrency (some c) ld bc heur = some c := by
  have hstr : strTruthy (some c) = some c := by
    simp [strTruthy, hc]
  simp [jsCurrency, hstr]

/-- C3 amended: the **document scanner** only ever produces a symbol from the
closed set {₽, Br, $, €, ₸} or passes the captured `priceCurrency` code
through unchanged, and produces nothing without a textual match; but a
currency supplied by the `og:price:currency` tag (and likewise a
structured-data offer currency) is passed through **unnormalized** by
`parse`, even when it is recognizable. -/
theorem c3_amended_currency_scope :
    (∀ html res, extractCurrencyFromHtml html = some res →
      res = "₽" ∨ res = "Br" ∨ res = "$" ∨ res = "€" ∨ res = "₸" ∨
        scanK priceCurrencyM html.data = some res) ∧
    (∀ html url c r, extractMeta html "og:price:currency" = some c → c ≠ "" →
      parse html url = some r → r.currency = some c) := by
  constructor
  · intro html res h
    cases hm1 : scanK priceCurrencyM html.data with
    | some c =>
      simp only [extractCurrencyFromHtml, hm1] at h
      split_ifs at h <;> cases h
      · exact Or.inr (Or.inl rfl)
      · exact Or.inl rfl
      · exact Or.inr (Or.inr (Or.inl rfl))
      · exact Or.inr (Or.inr (Or.inr (Or.inl rfl)))
      · exact Or.inr (Or.inr (Or.inr (Or.inr (Or.inl rfl))))
      · exact Or.inr (Or.inr (Or.inr (Or.inr (Or.inr rfl))))
    | none =>
      cases hm2 : scanBK curTokM none html.data with
      | some c =>
        simp only [extractCurrencyFromHtml, hm1, hm2] at h
        split_ifs at h <;> cases h
        · exact Or.inr (Or.inl rfl)
        · exact Or.inl rfl
        · exact Or.inr (Or.inr (Or.inl rfl))
        · exact Or.inr (Or.inr (Or.inr (Or.inl rfl)))
      | none =>
        simp only [extractCurrencyFromHtml, hm1, hm2] at h
        cases h
  · intro html url c r hog hc hp
    obtain ⟨b, sz, img, hb, hsz, him, rfl⟩ := parse_some_elim hp
    show jsCurrency (extractMeta html "og:price:currency") (extractJsonLd html) b.currency
          (extractCurrencyFromHtml html) = some c
    rw [hog]
    exact jsCurrency_og_passthrough c hc _ _ _

/-- Closed witness for `c3_amended_currency_scope`: the scanner normalizes a
JSON-LD-style `priceCurrency` code, and the og tag passes through. -/
theorem c3_amended_currency_scope_witness :
    ("₽" : String) = "₽" ∨ ("₽" : String) = "Br" ∨ ("₽" : String) = "$" ∨
      ("₽" : String) = "€" ∨ ("₽" : String) = "₸" ∨
      scanK priceCurrencyM "\"priceCurrency\": \"RUB\"".data = some "₽" :=
  c3_amended_currency_scope.1 "\"priceCurrency\": \"RUB\"" "₽" (by decide)

/-- The structured-data name, projected to text (used to state C6). -/
def ldNameStr (jsonLd : Option Json) : Option String :=
  match jsonLd.bind (fun j => getField j "name") with
  | some (.str s) => some s
  | _ => none

/-- `strTruthy` on a missing value. -/
theorem strTruthy_none : strTruthy none = none := rfl

/-- `jsName` is the first-available-wins cascade over the four textual
sources, provided the structured-data name (when truthy) is textual. -/
theorem jsName_precedence (ogTitle : Option String) (jsonLd : Option Json)
    (blobName title : Option String)
    (hld : ∀ v, jsonLd.bind (fun j => getField j "name") = some v → jsTruthy v = true →
      ∃ s, v = Json.str s) :
    jsName ogTitle jsonLd blobName title =
      ([ogTitle, ldNameStr jsonLd, blobName, title].findSome? strTruthy).getD "N/A" := by
  cases hog : strTruthy ogTitle with
  | some s => simp [jsName, hog, List.findSome?_cons]
  | none =>
    cases hname : jsonLd.bind (fun j => getField j "name") with
    | none =>
      have hlds : strTruthy (ldNameStr jsonLd) = none := by
        simp [ldNameStr, hname, strTruthy_none]
      cases hbn : strTruthy blobName with
      | some s => simp [jsName, hog, hname, hlds, hbn, List.findSome?_cons]
      | none =>
        cases ht : strTruthy title with
        | some s => simp [jsName, hog, hname, hlds, hbn, ht, List.findSome?_cons]
        | none => simp [jsName, hog, hname, hlds, hbn, ht, List.findSome?_cons]
    | some v =>
      cases htr : jsTruthy v with
      | true =>
        obtain ⟨s, rfl⟩ := hld v hname htr
        have hs : s ≠ "" := by simpa [jsTruthy] using htr
        have hlds : strTruthy (ldNameStr jsonLd) = some s := by
          simp [ldNameStr, hname, strTruthy, hs]
        simp [jsName, hog, hname, htr, hlds, List.findSome?_cons]
      | false =>
        have hlds : strTruthy (ldNameStr jsonLd) = none := by
          rcases v with _ | b | q | s | es | ms
          · simp [ldNameStr, hname, strTruthy]
          · simp [ldNameStr, hname, strTruthy]
          · simp [ldNameStr, hname, strTruthy]
          · have hs : s = "" := by simpa [jsTruthy] using htr
            simp [ldNameStr, hname, hs, strTruthy]
          · simp [ldNameStr, hname, strTruthy]
          · simp [ldNameStr, hname, strTruthy]
        cases hbn : strTruthy blobName with
        | some s => simp [jsName, hog, hname, htr, hlds, hbn, List.findSome?_cons]
        | none =>
          cases ht : strTruthy title with
          | some s => simp [jsName, hog, hname, htr, hlds, hbn, ht, List.findSome?_cons]
          | none => simp [jsName, hog, hname, htr, hlds, hbn, ht, List.findSome?_cons]

/-- The C6 scenario document: only an open-graph title and a script-blob
price are present. -/
def c6Html : String :=
  "<meta property=\"og:title\" content=\"Shoe\"><script>\x7b\"price\": 99\x7d</script>"

/-- C6: the resolved name follows the precedence open-graph title →
structured-data name → script-blob name → document title → `"N/A"` sentinel,
first available (truthy) wins — formalized for documents whose
structured-data name, when truthy, is textual (a non-string name is clamped
to the sentinel by the final type guard rather than falling through).  In
particular, on a document with only an og:title and a script-blob price the
merged record takes its name from the og title and its price (99) from the
script blob. -/
theorem c6_name_precedence_and_scenario :
    (∀ html url r b, parse html url = some r → extractFromJsonBlobs html url = some b →
      (∀ v, (extractJsonLd html).bind (fun j => getField j "name") = some v →
        jsTruthy v = true → ∃ s, v = Json.str s) →
      r.name = ([extractMeta html "og:title", ldNameStr (extractJsonLd html), b.name,
                 extractTitle html].findSome? strTruthy).getD "N/A") ∧
    ((parse c6Html "https://e.x").map (fun r => (r.name, r.price)) = some ("Shoe", some 99) ∧
     (extractFromJsonBlobs c6Html "https://e.x").map BlobOut.price = some (some 99) ∧
     extractMeta c6Html "og:title" = some "Shoe" ∧
     extractMeta c6Html "og:price:amount" = none ∧
     extractJsonLd c6Html = none) := by
  constructor
  · intro html url r b hp hbb hld
    obtain ⟨b2, sz, img, hb2, hsz, him, rfl⟩ := parse_some_elim hp
    have hbe : b2 = b := Option.some.inj (hb2.symm.trans hbb)
    subst hbe
    show jsName (extractMeta html "og:title") (extractJsonLd html) b2.name
          (extractTitle html) = _
    exact jsName_precedence _ _ _ _ hld
  · exact ⟨rfl, rfl, rfl, rfl, rfl⟩

/-- Closed witness for `c6_name_precedence_and_scenario` at the scenario
document. -/
theorem c6_name_precedence_witness :
    (⟨"Shoe", some 99, none, none, "https://e.x", none⟩ : PageRecord).name
      = ([extractMeta c6Html "og:title", ldNameStr (extractJsonLd c6Html),
          (⟨none, some 99, none, none⟩ : BlobOut).name,
          extractTitle c6Html].findSome? strTruthy).getD "N/A" :=
  c6_name_precedence_and_scenario.1 c6Html "https://e.x"
    ⟨"Shoe", some 99, none, none, "https://e.x", none⟩ ⟨none, some 99, none, none⟩ rfl rfl
    (fun v hv _ => by
      rw [show extractJsonLd c6Html = none from rfl] at hv
      cases hv)

/-- An outcome from which no candidate record can be extracted: a failed or
non-OK call, a missing message, or a message whose greedy `{…}` span (if
any) fails `JSON.parse`. -/
def unusableOutcome : FetchOutcome → Prop
  | .ok (some t) => ∀ s, braceSpanGreedy t = some s → jsonParse s = none
  | _ => True

/-- A provider branch yields nothing from an unusable outcome (or when its
key is missing). -/
theorem tryVisionProvider_unusable {k : Bool} {o : FetchOutcome}
    (h : unusableOutcome o) : tryVisionProvider k o = none := by
  cases k with
  | false => rfl
  | true =>
    cases o with
    | netFail => rfl
    | httpErr => rfl
    | ok c =>
      cases c with
      | none => rfl
      | some t =>
        cases hb : braceSpanGreedy t with
        | none => simp [tryVisionProvider, hb]
        | some s => simp [tryVisionProvider, hb, h s hb]

/-- C9: with no vision provider credential configured, and likewise when
every configured provider call fails or returns an unusable response, the
image analyzer returns the record `{name: "N/A", price: null, currency:
null, size: null}`; the model is a total function, so no error is raised on
these paths. -/
theorem c9_unconfigured_or_all_unusable_na :
    (∀ og oo ogm, analyzeImage ⟨false, false, false⟩ og oo ogm = naRecord) ∧
    (∀ cfg og oo ogm, unusableOutcome og → unusableOutcome oo → unusableOutcome ogm →
      analyzeImage cfg og oo ogm = naRecord) ∧
    naRecord.name = Json.str "N/A" ∧ naRecord.price = none ∧
    naRecord.currency = none ∧ naRecord.size = none := by
  refine ⟨fun og oo ogm => rfl, ?_, rfl, rfl, rfl, rfl⟩
  intro cfg og oo ogm h1 h2 h3
  simp only [analyzeImage, tryVisionProvider_unusable h1, tryVisionProvider_unusable h2,
    tryVisionProvider_unusable h3]
  split_ifs <;> rfl

/-- Closed witness for `c9_unconfigured_or_all_unusable_na`: all three
providers configured, all failing or unusable. -/
theorem c9_unconfigured_or_all_unusable_na_witness :
    analyzeImage ⟨true, true, true⟩ .netFail .httpErr (.ok (some "no braces here"))
      = naRecord :=
  c9_unconfigured_or_all_unusable_na.2.1 ⟨true, true, true⟩ .netFail .httpErr
    (.ok (some "no braces here")) trivial trivial
    (fun s hs => by
      rw [show braceSpanGreedy "no braces here" = none from rfl] at hs
      cases hs)

/-- Code points never outnumber UTF-16 code units. -/
theorem length_le_utf16Len (s : String) : s.length ≤ utf16Len s := by
  show s.data.length ≤ utf16Len s
  have h : ∀ (l : List Char) (n : Nat),
      n + l.length ≤ l.foldl (fun m c => m + (if Nat.ble 0x10000 c.toNat then 2 else 1)) n := by
    intro l
    induction l with
    | nil => intro n; simp
    | cons c cs ih =>
      intro n
      simp only [List.foldl_cons, List.length_cons]
      calc n + (cs.length + 1)
          ≤ (n + (if Nat.ble 0x10000 c.toNat then 2 else 1)) + cs.length := by
            split_ifs <;> omega
        _ ≤ _ := ih _
  simpa [utf16Len] using h s.data 0

/-- An accepted submission text has between 1 and 2000 code points. -/
theorem validText_some {body : BodyText} {t : String} (h : validText body = some t) :
    1 ≤ t.length ∧ t.length ≤ 2000 := by
  cases body with
  | missing => cases h
  | nonString => cases h
  | str s =>
    simp only [validText] at h
    split_ifs at h with hc
    cases h
    rw [Bool.or_eq_true, not_or] at hc
    obtain ⟨h1, h2⟩ := hc
    constructor
    · rcases Nat.eq_zero_or_pos t.length with hz | hp
      · exfalso
        apply h1
        have hd : t.data = [] := List.length_eq_zero.mp hz
        simp [String.ext hd]
      · omega
    · have hlt : ¬(2000 < utf16Len t) := by
        intro hx
        exact h2 (by simpa [Nat.blt_eq] using hx)
      have := length_le_utf16Len t
      omega

/-- Every entry's text is non-empty and at most 2000 code points long. -/
def entryOk (kv : String × WishEntry) : Prop :=
  1 ≤ kv.2.text.length ∧ kv.2.text.length ≤ 2000

/-- One environment event preserves the store invariant. -/
theorem stepOp_inv {st : StoreState} (hst : ∀ kv ∈ st.store, entryOk kv) (op : WishOp) :
    ∀ kv ∈ (stepOp st op).store, entryOk kv := by
  cases op with
  | post id body =>
    cases hv : validText body with
    | none =>
      intro kv hkv
      simp only [stepOp, storeWishTextHandler, hv] at hkv
      exact hst kv hkv
    | some t =>
      intro kv hkv
      simp only [stepOp, storeWishTextHandler, hv, mapSet, List.mem_cons] at hkv
      rcases hkv with rfl | hkv2
      · exact validText_some hv
      · exact hst kv (List.mem_of_mem_filter hkv2)
  | advance d =>
    intro kv hkv
    exact hst kv hkv
  | fire id =>
    intro kv hkv
    simp only [stepOp] at hkv
    split_ifs at hkv
    · exact hst kv (List.mem_of_mem_filter hkv)
    · exact hst kv hkv

/-- The store invariant holds in every reachable state. -/
theorem execOps_inv (ops : List WishOp) : ∀ kv ∈ (execOps ops).store, entryOk kv := by
  suffices h : ∀ st, (∀ kv ∈ st.store, entryOk kv) →
      ∀ kv ∈ (ops.foldl stepOp st).store, entryOk kv by
    exact h initStore (by simp [initStore])
  induction ops with
  | nil => intro st hst; simpa using hst
  | cons op ops ih =>
    intro st hst
    exact ih _ (stepOp_inv hst op)

/-- C10: the submit-text operation rejects an empty string, a non-string
value, and any text longer than 2000 characters with a 400 response and
leaves the store unchanged; consequently every entry ever present in the
store holds a text of 1 to 2000 characters.  (The code's bound is UTF-16
code units, which only tightens the accepted set: code points never exceed
code units.) -/
theorem c10_validation_and_store_invariant :
    (∀ st id body, validText body = none → storeWishTextHandler st id body = (st, none)) ∧
    validText (.str "") = none ∧ validText .nonString = none ∧ validText .missing = none ∧
    (∀ s, 2000 < s.length → validText (.str s) = none) ∧
    (∀ ops kv, kv ∈ (execOps ops).store →
      1 ≤ kv.2.text.length ∧ kv.2.text.length ≤ 2000) := by
  refine ⟨?_, rfl, rfl, rfl, ?_, ?_⟩
  · intro st id body hv
    simp [storeWishTextHandler, hv]
  · intro s hs
    have h1 : 2000 < utf16Len s := lt_of_lt_of_le hs (length_le_utf16Len s)
    have h2 : Nat.blt 2000 (utf16Len s) = true := by simpa [Nat.blt_eq] using h1
    simp [validText, h2]
  · intro ops kv hkv
    exact execOps_inv ops kv hkv

/-- Closed witness for `c10_validation_and_store_invariant`: the invariant
at a concrete reachable store. -/
theorem c10_validation_and_store_invariant_witness :
    1 ≤ ("w1", WishEntry.mk "hi" 600000).2.text.length ∧
      ("w1", WishEntry.mk "hi" 600000).2.text.length ≤ 2000 :=
  c10_validation_and_store_invariant.2.2.2.2.2 [WishOp.post "w1" (.str "hi")]
    ("w1", WishEntry.mk "hi" 600000) (by decide)

/-- C3 as stated is false: a recognizable raw currency from the open-graph
tag is passed through unnormalized.  On a document whose
`og:price:currency` content is `"RUB"` — a value the document scanner itself
normalizes to ₽ on the very same document — `parse` returns `"RUB"`, not
`"₽"`. -/
theorem c3_counterexample :
    (parse "<meta property=\"og:price:currency\" content=\"RUB\">" "https://e.x").map
        PageRecord.currency = some (some "RUB") ∧
    extractCurrencyFromHtml "<meta property=\"og:price:currency\" content=\"RUB\">"
      = some "₽" ∧
    ("RUB" : String) ≠ "₽" := by
  exact ⟨rfl, by decide, by decide⟩

end LinkScraper
